import Mathlib

/-!
# Verification of the flow-guard quota admission engine

A shallow embedding of the flow-guard rate limiter core: the token bucket
(`TokenBucket`, from the `types` package) and the admission manager
(`Manager`, from the `limiter` package).  Go's `float64` bucket arithmetic
is modelled over `ℚ`, `int64` over `Int`, and `time.Time` instants as
rational second counts passed in explicitly (`now`); the Go maps become
association lists keyed by client identifier.  Mutex acquisition has no
sequential content and is dropped; the double-checked stats-creation block
in `CheckAndConsume` collapses sequentially to "insert a zeroed record if
absent", which is how it is rendered here.
-/

namespace FlowGuard

/-! ## Association-list maps (Go `map[string]·`) -/

def lookupKey {α : Type} : List (String × α) → String → Option α
  | [], _ => none
  | (k', v) :: t, k => if k' = k then some v else lookupKey t k

def upsert {α : Type} : List (String × α) → String → α → List (String × α)
  | [], k, v => [(k, v)]
  | (k', v') :: t, k, v => if k' = k then (k, v) :: t else (k', v') :: upsert t k v

def eraseKey {α : Type} : List (String × α) → String → List (String × α)
  | [], _ => []
  | (k', v') :: t, k => if k' = k then eraseKey t k else (k', v') :: eraseKey t k

/-! ## `types` package: configs, stats, token bucket, errors -/

/-- Model of `types.ClientConfig` (the `clientID`/`rpm`/`tpm`/`enabled` record;
`none` on a limit means that dimension is unlimited). -/
structure ClientConfig where
  ClientID : String
  RPM : Option Int
  TPM : Option Int
  Enabled : Bool
  deriving Repr, DecidableEq

/-- Model of `types.ClientStats`. -/
structure ClientStats where
  ClientID : String
  TotalRequests : Int
  SuccessRequests : Int
  DroppedRequests : Int
  RPMDropped : Int
  TPMDropped : Int
  TokensUsed : Int
  RPMRemaining : Int
  TPMRemaining : Int
  LastRequestTime : ℚ
  AvgLatencyMs : ℚ
  deriving Repr, DecidableEq

/-- Model of `types.TokenBucket`: capacity (`int64`), level and refill rate
(`float64`, rendered as `ℚ`), and the last refill instant. -/
structure TokenBucket where
  capacity : Int
  tokens : ℚ
  refillRate : ℚ
  lastRefill : ℚ
  deriving Repr, DecidableEq

/-- Model of `types.NewTokenBucket`: starts full, refill rate is the per-minute
limit divided by 60. -/
def NewTokenBucket (capacity refillPerMinute : Int) (now : ℚ) : TokenBucket :=
  { capacity := capacity
    tokens := (capacity : ℚ)
    refillRate := (refillPerMinute : ℚ) / 60
    lastRefill := now }

/-- Model of `(*TokenBucket).refill`: add `elapsed × refillRate`, clamp to capacity,
only when strictly positive time has elapsed. -/
def TokenBucket.refill (tb : TokenBucket) (now : ℚ) : TokenBucket :=
  let elapsed := now - tb.lastRefill
  if 0 < elapsed then
    { tb with
      tokens := min (tb.tokens + elapsed * tb.refillRate) ((tb.capacity : ℚ))
      lastRefill := now }
  else tb

/-- Model of `(*TokenBucket).TryConsume`: refill, then consume fully or not at all. -/
def TokenBucket.TryConsume (tb : TokenBucket) (now : ℚ) (tokens : Int) :
    Bool × TokenBucket :=
  let tb := tb.refill now
  if (tokens : ℚ) ≤ tb.tokens then
    (true, { tb with tokens := tb.tokens - (tokens : ℚ) })
  else
    (false, tb)

/-- Go's `int64(x)` on a `float64`: truncation toward zero. -/
def int64Trunc (q : ℚ) : Int := if 0 ≤ q then ⌊q⌋ else ⌈q⌉

/-- Model of `(*TokenBucket).GetRemainingTokens`: refill, then report the truncated
level (the refill is a real state change, so the bucket is returned too). -/
def TokenBucket.GetRemainingTokens (tb : TokenBucket) (now : ℚ) :
    Int × TokenBucket :=
  let tb := tb.refill now
  (int64Trunc tb.tokens, tb)

/-- Model of `types.RateLimitError` (the Go field `Type` is a Lean keyword, so it is
rendered `errType`). -/
structure RateLimitError where
  errType : String
  Message : String
  deriving Repr, DecidableEq

def ErrRPMExceeded : RateLimitError :=
  { errType := "rpm_exceeded", Message := "Request rate limit exceeded" }

def ErrTPMExceeded : RateLimitError :=
  { errType := "tpm_exceeded", Message := "Token rate limit exceeded" }

def ErrClientNotFound : RateLimitError :=
  { errType := "client_not_found", Message := "Client not configured" }

/-! ## `limiter` package: the admission manager -/

/-- Model of `limiter.ClientLimiter`. -/
structure ClientLimiter where
  config : ClientConfig
  rpmBucket : Option TokenBucket
  tpmBucket : Option TokenBucket
  deriving Repr, DecidableEq

/-- Model of `limiter.Manager`: the two registries. -/
structure Manager where
  clients : List (String × ClientLimiter)
  stats : List (String × ClientStats)
  deriving Repr, DecidableEq

/-- Model of `limiter.NewManager`. -/
def NewManager : Manager := { clients := [], stats := [] }

/-- A freshly created stats record (`&types.ClientStats{ClientID: ...,
LastRequestTime: time.Now()}`; every other field is Go's zero value). -/
def newClientStats (clientID : String) (now : ℚ) : ClientStats :=
  { ClientID := clientID
    TotalRequests := 0
    SuccessRequests := 0
    DroppedRequests := 0
    RPMDropped := 0
    TPMDropped := 0
    TokensUsed := 0
    RPMRemaining := 0
    TPMRemaining := 0
    LastRequestTime := now
    AvgLatencyMs := 0 }

/-- The `ClientLimiter` built inside `SetClientConfig`: a bucket per
dimension exactly when that limit is present and strictly positive. -/
def buildLimiter (config : ClientConfig) (now : ℚ) : ClientLimiter :=
  { config := config
    rpmBucket :=
      match config.RPM with
      | some r => if 0 < r then some (NewTokenBucket r r now) else none
      | none => none
    tpmBucket :=
      match config.TPM with
      | some t => if 0 < t then some (NewTokenBucket t t now) else none
      | none => none }

/-- Model of `(*Manager).SetClientConfig`: replace the whole quota state, create the
stats record only if absent. -/
def Manager.SetClientConfig (m : Manager) (config : ClientConfig) (now : ℚ) :
    Manager :=
  { clients := upsert m.clients config.ClientID (buildLimiter config now)
    stats :=
      match lookupKey m.stats config.ClientID with
      | some _ => m.stats
      | none => upsert m.stats config.ClientID (newClientStats config.ClientID now) }

/-- Model of `(*Manager).updateSuccessStats`.  (In Go a missing record would be a nil
dereference; the callers only invoke it after ensuring the record exists, and
the embedding leaves the state unchanged in that unreachable case.) -/
def Manager.updateSuccessStats (m : Manager) (clientID : String) (tokens : Int)
    (now : ℚ) : Manager :=
  match lookupKey m.stats clientID with
  | none => m
  | some s =>
    { m with
      stats := upsert m.stats clientID
        { s with
          TotalRequests := s.TotalRequests + 1
          SuccessRequests := s.SuccessRequests + 1
          TokensUsed := s.TokensUsed + tokens
          LastRequestTime := now } }

/-- Model of `(*Manager).updateDroppedStats`. -/
def Manager.updateDroppedStats (m : Manager) (clientID : String)
    (reason : String) (now : ℚ) : Manager :=
  match lookupKey m.stats clientID with
  | none => m
  | some s =>
    let s :=
      { s with
        TotalRequests := s.TotalRequests + 1
        DroppedRequests := s.DroppedRequests + 1
        LastRequestTime := now }
    let s :=
      if reason = "rpm" then { s with RPMDropped := s.RPMDropped + 1 }
      else if reason = "tpm" then { s with TPMDropped := s.TPMDropped + 1 }
      else s
    { m with stats := upsert m.stats clientID s }

/-- Store a mutated request-rate bucket back into the registry (in Go the
bucket is mutated in place through the `client` pointer). -/
def Manager.setRpmBucket (m : Manager) (clientID : String) (b : TokenBucket) :
    Manager :=
  match lookupKey m.clients clientID with
  | none => m
  | some cl =>
    { m with clients := upsert m.clients clientID { cl with rpmBucket := some b } }

/-- Store a mutated weight-rate bucket back into the registry. -/
def Manager.setTpmBucket (m : Manager) (clientID : String) (b : TokenBucket) :
    Manager :=
  match lookupKey m.clients clientID with
  | none => m
  | some cl =>
    { m with clients := upsert m.clients clientID { cl with tpmBucket := some b } }

/-- The `!exists` block of `CheckAndConsume`: auto-create an enabled,
unlimited client when the identifier is unknown. -/
def Manager.autoProvision (m : Manager) (clientID : String) (now : ℚ) : Manager :=
  if (lookupKey m.clients clientID).isSome then m
  else
    m.SetClientConfig
      { ClientID := clientID, RPM := none, TPM := none, Enabled := true } now

/-- The `!statsExists` block of `CheckAndConsume` (double-checked creation,
which sequentially is just "create if still absent"). -/
def Manager.ensureStats (m : Manager) (clientID : String) (now : ℚ) : Manager :=
  match lookupKey m.stats clientID with
  | some _ => m
  | none => { m with stats := upsert m.stats clientID (newClientStats clientID now) }

/-- The TPM half of `CheckAndConsume` (`client` is the limiter pointer read
at the top of the call; its `tpmBucket` field is unchanged by the RPM step). -/
def Manager.tpmPhase (m : Manager) (clientID : String) (client : ClientLimiter)
    (tokenEstimate : Int) (now : ℚ) : Option RateLimitError × Manager :=
  match client.config.TPM, client.tpmBucket with
  | some _, some b =>
    let r := b.TryConsume now tokenEstimate
    let m := m.setTpmBucket clientID r.2
    if r.1 = false then
      (some ErrTPMExceeded, m.updateDroppedStats clientID "tpm" now)
    else
      (none, m.updateSuccessStats clientID tokenEstimate now)
  | _, _ => (none, m.updateSuccessStats clientID tokenEstimate now)

/-- Model of `(*Manager).CheckAndConsume`: provision unknown clients, bypass when
disabled, then RPM consume of 1 and TPM consume of the estimate, recording
stats on every outcome.  A failed TPM check does not refund the RPM unit
(the Go refund branch is an empty comment block). -/
def Manager.CheckAndConsume (m : Manager) (clientID : String)
    (tokenEstimate : Int) (now : ℚ) : Option RateLimitError × Manager :=
  let m := (m.autoProvision clientID now).ensureStats clientID now
  match lookupKey m.clients clientID with
  | none => (none, m)
  | some client =>
    if client.config.Enabled = false then
      (none, m.updateSuccessStats clientID tokenEstimate now)
    else
      match client.config.RPM, client.rpmBucket with
      | some _, some b =>
        let r := b.TryConsume now 1
        let m := m.setRpmBucket clientID r.2
        if r.1 = false then
          (some ErrRPMExceeded, m.updateDroppedStats clientID "rpm" now)
        else
          m.tpmPhase clientID client tokenEstimate now
      | _, _ => m.tpmPhase clientID client tokenEstimate now

/-- Model of `(*Manager).GetClientConfig`. -/
def Manager.GetClientConfig (m : Manager) (clientID : String) :
    Option ClientConfig :=
  match lookupKey m.clients clientID with
  | none => none
  | some client => some client.config

/-- The per-client refresh performed by the stats getters: read each
bucket's remaining tokens (refilling it) and store the counts in the
record's remaining fields. -/
def ClientLimiter.refreshRemaining (cl : ClientLimiter) (s : ClientStats)
    (now : ℚ) : ClientLimiter × ClientStats :=
  let p :=
    match cl.rpmBucket with
    | some b =>
      let r := b.GetRemainingTokens now
      ({ cl with rpmBucket := some r.2 }, { s with RPMRemaining := r.1 })
    | none => (cl, s)
  match p.1.tpmBucket with
  | some b =>
    let r := b.GetRemainingTokens now
    ({ p.1 with tpmBucket := some r.2 }, { p.2 with TPMRemaining := r.1 })
  | none => p

/-- Refresh one client's remaining-quota fields in the registry (the body of
`GetClientStats` / one iteration of `GetAllStats`; in Go the stats record and
buckets are mutated through their pointers). -/
def Manager.refreshClient (m : Manager) (clientID : String) (now : ℚ) : Manager :=
  match lookupKey m.stats clientID with
  | none => m
  | some s =>
    match lookupKey m.clients clientID with
    | none => m
    | some cl =>
      let p := cl.refreshRemaining s now
      { clients := upsert m.clients clientID p.1
        stats := upsert m.stats clientID p.2 }

/-- Model of `(*Manager).GetClientStats`. -/
def Manager.GetClientStats (m : Manager) (clientID : String) (now : ℚ) :
    Option ClientStats × Manager :=
  match lookupKey m.stats clientID with
  | none => (none, m)
  | some _ =>
    let m := m.refreshClient clientID now
    (lookupKey m.stats clientID, m)

/-- Model of `(*Manager).GetAllClients`. -/
def Manager.GetAllClients (m : Manager) : List (String × ClientConfig) :=
  m.clients.map (fun p => (p.1, p.2.config))

/-- Model of `(*Manager).GetAllStats`: refresh every client present in the stats
registry, then return the whole registry (in Go the result map holds the
same pointers as the registry). -/
def Manager.GetAllStats (m : Manager) (now : ℚ) :
    List (String × ClientStats) × Manager :=
  let m := (m.stats.map Prod.fst).foldl (fun acc k => acc.refreshClient k now) m
  (m.stats, m)

/-- Model of `(*Manager).DeleteClient`: remove both registries' entries, report prior
existence. -/
def Manager.DeleteClient (m : Manager) (clientID : String) : Bool × Manager :=
  if (lookupKey m.clients clientID).isSome then
    (true,
      { clients := eraseKey m.clients clientID
        stats := eraseKey m.stats clientID })
  else
    (false, m)

/-- Model of `(*Manager).UpdateLatency`: `avg = sample` on the first sample
(`AvgLatencyMs == 0`), else the running average `(avg + sample) / 2`. -/
def Manager.UpdateLatency (m : Manager) (clientID : String) (latencyMs : ℚ) :
    Manager :=
  match lookupKey m.stats clientID with
  | none => m
  | some s =>
    let s :=
      if s.AvgLatencyMs = 0 then { s with AvgLatencyMs := latencyMs }
      else { s with AvgLatencyMs := (s.AvgLatencyMs + latencyMs) / 2 }
    { m with stats := upsert m.stats clientID s }

/-! ## Operation traces -/

/-- One public Manager operation, with its call instant where relevant. -/
inductive Op where
  | decide (clientID : String) (weight : Int) (now : ℚ)
  | setConfig (config : ClientConfig) (now : ℚ)
  | getConfig (clientID : String)
  | getStats (clientID : String) (now : ℚ)
  | listConfigs
  | listStats (now : ℚ)
  | deleteClient (clientID : String)
  | recordLatency (clientID : String) (ms : ℚ)

/-- The state effect of one public operation. -/
def Manager.applyOp (m : Manager) : Op → Manager
  | .decide id w now => (m.CheckAndConsume id w now).2
  | .setConfig cfg now => m.SetClientConfig cfg now
  | .getConfig _ => m
  | .getStats id now => (m.GetClientStats id now).2
  | .listConfigs => m
  | .listStats now => (m.GetAllStats now).2
  | .deleteClient id => (m.DeleteClient id).2
  | .recordLatency id ms => m.UpdateLatency id ms

def runOps (m : Manager) (ops : List Op) : Manager :=
  ops.foldl Manager.applyOp m

/-- One call against a single token bucket. -/
inductive BucketOp where
  | tryConsume (now : ℚ) (amount : Int)
  | getRemaining (now : ℚ)

/-- Whether a bucket call's consume amount is non-negative. -/
def BucketOp.wf : BucketOp → Prop
  | .tryConsume _ amount => 0 ≤ amount
  | .getRemaining _ => True

instance : DecidablePred BucketOp.wf := fun op => by
  cases op <;> simp [BucketOp.wf] <;> infer_instance

/-- The state effect of one bucket call. -/
def TokenBucket.applyOp (tb : TokenBucket) : BucketOp → TokenBucket
  | .tryConsume now amount => (tb.TryConsume now amount).2
  | .getRemaining now => (tb.GetRemainingTokens now).2

def runBucketOps (tb : TokenBucket) (ops : List BucketOp) : TokenBucket :=
  ops.foldl TokenBucket.applyOp tb

/-! ## Specification predicates -/

/-- The bucket's level is within bounds and its refill rate is non-negative
(every bucket the program builds has a positive per-minute rate). -/
def TokenBucket.Inv (tb : TokenBucket) : Prop :=
  0 ≤ tb.tokens ∧ tb.tokens ≤ (tb.capacity : ℚ) ∧ 0 ≤ tb.refillRate

instance (tb : TokenBucket) : Decidable tb.Inv := by
  unfold TokenBucket.Inv; infer_instance

/-- Whether an optional per-minute limit is present and strictly positive
(the `cfg != nil && *cfg > 0` guard of `SetClientConfig`). -/
def limitPos : Option Int → Bool
  | some r => decide (0 < r)
  | none => false

/-- A quota state is well formed when each bucket is present exactly when
the corresponding limit is configured and strictly positive. -/
def ClientLimiter.WellFormed (cl : ClientLimiter) : Prop :=
  cl.rpmBucket.isSome = limitPos cl.config.RPM ∧
  cl.tpmBucket.isSome = limitPos cl.config.TPM

/-- Every registered quota state is well formed. -/
def Manager.BucketIff (m : Manager) : Prop :=
  ∀ p ∈ m.clients, p.2.WellFormed

/-- The two counter equations of the statistics record. -/
def ClientStats.Inv (s : ClientStats) : Prop :=
  s.TotalRequests = s.SuccessRequests + s.DroppedRequests ∧
  s.DroppedRequests = s.RPMDropped + s.TPMDropped

/-- Every registered statistics record satisfies the counter equations. -/
def Manager.StatsInv (m : Manager) : Prop :=
  ∀ p ∈ m.stats, ClientStats.Inv p.2

/-- The quota-state registry and the statistics registry hold exactly the
same client identifiers. -/
def Manager.SameKeys (m : Manager) : Prop :=
  ∀ id, (lookupKey m.clients id).isSome = (lookupKey m.stats id).isSome

/-- Equality of every statistics field except the two remaining-quota
gauges. -/
def sameCounters (a b : ClientStats) : Prop :=
  a.ClientID = b.ClientID ∧
  a.TotalRequests = b.TotalRequests ∧
  a.SuccessRequests = b.SuccessRequests ∧
  a.DroppedRequests = b.DroppedRequests ∧
  a.RPMDropped = b.RPMDropped ∧
  a.TPMDropped = b.TPMDropped ∧
  a.TokensUsed = b.TokensUsed ∧
  a.LastRequestTime = b.LastRequestTime ∧
  a.AvgLatencyMs = b.AvgLatencyMs

/-! ## Association-list lemmas -/

theorem lookupKey_upsert {α : Type} (l : List (String × α)) (k : String) (v : α)
    (id : String) :
    lookupKey (upsert l k v) id = if k = id then some v else lookupKey l id := by
  induction l with
  | nil =>
    by_cases h : k = id <;> simp [upsert, lookupKey, h]
  | cons p t ih =>
    obtain ⟨k', v'⟩ := p
    by_cases h1 : k' = k
    · subst h1
      by_cases h2 : k' = id <;> simp [upsert, lookupKey, h2]
    · by_cases h2 : k' = id
      · subst h2
        have hk : ¬ k = k' := fun h => h1 h.symm
        simp [upsert, lookupKey, h1, hk]
      · simp [upsert, lookupKey, h1, h2, ih]

theorem lookupKey_upsert_self {α : Type} (l : List (String × α)) (k : String)
    (v : α) : lookupKey (upsert l k v) k = some v := by
  simp [lookupKey_upsert]

theorem lookupKey_eraseKey {α : Type} (l : List (String × α)) (k id : String) :
    lookupKey (eraseKey l k) id = if k = id then none else lookupKey l id := by
  induction l with
  | nil => by_cases h : k = id <;> simp [eraseKey, lookupKey, h]
  | cons p t ih =>
    obtain ⟨k', v'⟩ := p
    by_cases h1 : k' = k
    · subst h1
      by_cases h2 : k' = id
      · subst h2
        simp [eraseKey, lookupKey, ih]
      · simp [eraseKey, lookupKey, h2, ih]
    · by_cases h2 : k' = id
      · subst h2
        have hk : ¬ k = k' := fun h => h1 h.symm
        simp [eraseKey, lookupKey, h1, hk]
      · simp [eraseKey, lookupKey, h1, h2, ih]

theorem mem_upsert {α : Type} {l : List (String × α)} {k : String} {v : α}
    {p : String × α} (hp : p ∈ upsert l k v) : p = (k, v) ∨ p ∈ l := by
  induction l with
  | nil =>
    simp only [upsert, List.mem_singleton] at hp
    exact Or.inl hp
  | cons q t ih =>
    by_cases h1 : q.1 = k
    · obtain ⟨k', v'⟩ := q
      simp only [upsert] at hp
      rw [if_pos h1] at hp
      rcases List.mem_cons.mp hp with h | h
      · exact Or.inl h
      · exact Or.inr (List.mem_cons_of_mem _ h)
    · obtain ⟨k', v'⟩ := q
      simp only [upsert] at hp
      rw [if_neg h1] at hp
      rcases List.mem_cons.mp hp with h | h
      · exact Or.inr (List.mem_cons.mpr (Or.inl h))
      · rcases ih h with h' | h'
        · exact Or.inl h'
        · exact Or.inr (List.mem_cons_of_mem _ h')

theorem mem_eraseKey {α : Type} {l : List (String × α)} {k : String}
    {p : String × α} (hp : p ∈ eraseKey l k) : p ∈ l := by
  induction l with
  | nil => simp [eraseKey] at hp
  | cons q t ih =>
    obtain ⟨k', v'⟩ := q
    by_cases h1 : k' = k
    · simp only [eraseKey] at hp
      rw [if_pos h1] at hp
      exact List.mem_cons_of_mem _ (ih hp)
    · simp only [eraseKey] at hp
      rw [if_neg h1] at hp
      rcases List.mem_cons.mp hp with h | h
      · exact List.mem_cons.mpr (Or.inl h)
      · exact List.mem_cons_of_mem _ (ih h)

theorem lookupKey_mem {α : Type} {l : List (String × α)} {id : String} {v : α}
    (h : lookupKey l id = some v) : (id, v) ∈ l := by
  induction l with
  | nil => simp [lookupKey] at h
  | cons q t ih =>
    obtain ⟨k', v'⟩ := q
    by_cases h1 : k' = id
    · subst h1
      simp [lookupKey] at h
      subst h
      exact List.mem_cons.mpr (Or.inl rfl)
    · simp [lookupKey, h1] at h
      exact List.mem_cons_of_mem _ (ih h)

/-! ## Token-bucket invariant (claim C2) -/

/-- Lemma: `TryConsume` unfolded: refill first, then all-or-nothing consumption. -/
theorem tryConsume_eq (tb : TokenBucket) (now : ℚ) (a : Int) :
    tb.TryConsume now a =
      if ((a : ℚ)) ≤ (tb.refill now).tokens then
        (true, { tb.refill now with tokens := (tb.refill now).tokens - (a : ℚ) })
      else (false, tb.refill now) := rfl

theorem newTokenBucket_inv (capacity refillPerMinute : Int) (now : ℚ)
    (hc : 0 ≤ capacity) (hr : 0 ≤ refillPerMinute) :
    (NewTokenBucket capacity refillPerMinute now).Inv := by
  refine ⟨?_, ?_, ?_⟩
  · show (0 : ℚ) ≤ (capacity : ℚ)
    exact_mod_cast hc
  · show ((capacity : ℚ)) ≤ ((capacity : ℚ))
    exact le_refl _
  · show (0 : ℚ) ≤ (refillPerMinute : ℚ) / 60
    have h : (0 : ℚ) ≤ (refillPerMinute : ℚ) := by exact_mod_cast hr
    positivity

theorem refill_inv {tb : TokenBucket} (now : ℚ) (h : tb.Inv) :
    (tb.refill now).Inv := by
  obtain ⟨h0, hc, hr⟩ := h
  unfold TokenBucket.refill
  dsimp only
  split
  · rename_i helapsed
    refine ⟨le_min ?_ ?_, ⟨min_le_right _ _, hr⟩⟩
    · have : 0 ≤ (now - tb.lastRefill) * tb.refillRate :=
        mul_nonneg (le_of_lt helapsed) hr
      linarith
    · exact le_trans h0 hc
  · exact ⟨h0, hc, hr⟩

theorem tryConsume_step_inv {tb : TokenBucket} (now : ℚ) (amount : Int)
    (h : tb.Inv) (hamt : 0 ≤ amount) : ((tb.TryConsume now amount).2).Inv := by
  obtain ⟨h0, hc, hr⟩ := refill_inv now h
  have hq : (0 : ℚ) ≤ (amount : ℚ) := by exact_mod_cast hamt
  rw [tryConsume_eq]
  split
  · rename_i hle
    exact ⟨by dsimp only; linarith, by dsimp only; linarith, hr⟩
  · exact ⟨h0, hc, hr⟩

theorem getRemaining_step_inv {tb : TokenBucket} (now : ℚ) (h : tb.Inv) :
    ((tb.GetRemainingTokens now).2).Inv := by
  unfold TokenBucket.GetRemainingTokens
  exact refill_inv now h

theorem runBucketOps_inv {tb : TokenBucket} {ops : List BucketOp}
    (h : tb.Inv) (hwf : ∀ op ∈ ops, op.wf) : (runBucketOps tb ops).Inv := by
  induction ops generalizing tb with
  | nil => exact h
  | cons op t ih =>
    have hop : op.wf := hwf op (List.mem_cons.mpr (Or.inl rfl))
    have ht : ∀ o ∈ t, o.wf := fun o ho => hwf o (List.mem_cons_of_mem _ ho)
    have hstep : (tb.applyOp op).Inv := by
      cases op with
      | tryConsume now amount => exact tryConsume_step_inv now amount h hop
      | getRemaining now => exact getRemaining_step_inv now h
    exact ih hstep ht

/-- C2: for every token bucket satisfying the bucket invariant and every
finite sequence of `TryConsume` / `GetRemainingTokens` calls with
non-negative consume amounts (the call instants are arbitrary, so any
elapsed time including zero or even negative is covered), the level stays
within `0 ≤ level ≤ capacity` after every call; and a failed `TryConsume`
leaves the bucket exactly as the refill left it. -/
theorem tryConsume_level_bounds (tb : TokenBucket) (ops : List BucketOp)
    (hinv : tb.Inv) (hwf : ∀ op ∈ ops, op.wf) :
    (0 ≤ (runBucketOps tb ops).tokens ∧
      (runBucketOps tb ops).tokens ≤ ((runBucketOps tb ops).capacity : ℚ)) ∧
    (∀ now amount, (tb.TryConsume now amount).1 = false →
      (tb.TryConsume now amount).2 = tb.refill now) := by
  constructor
  · have h := runBucketOps_inv hinv hwf
    exact ⟨h.1, h.2.1⟩
  · intro now amount hfail
    by_cases hc : ((amount : ℚ)) ≤ (tb.refill now).tokens
    · rw [tryConsume_eq, if_pos hc] at hfail
      simp at hfail
    · rw [tryConsume_eq, if_neg hc]

/-- Witness for C2: a capacity-10 bucket run through a consume of 3, a
remaining-read one second later, and an oversized consume of 100. -/
theorem tryConsume_level_bounds_witness :
    (0 ≤ (runBucketOps (NewTokenBucket 10 10 0)
        [.tryConsume 0 3, .getRemaining 1, .tryConsume 1 100]).tokens ∧
      (runBucketOps (NewTokenBucket 10 10 0)
        [.tryConsume 0 3, .getRemaining 1, .tryConsume 1 100]).tokens ≤
        (((runBucketOps (NewTokenBucket 10 10 0)
          [.tryConsume 0 3, .getRemaining 1, .tryConsume 1 100]).capacity : ℚ))) ∧
    (∀ now amount,
      ((NewTokenBucket 10 10 0).TryConsume now amount).1 = false →
      ((NewTokenBucket 10 10 0).TryConsume now amount).2 =
        (NewTokenBucket 10 10 0).refill now) :=
  tryConsume_level_bounds (NewTokenBucket 10 10 0)
    [.tryConsume 0 3, .getRemaining 1, .tryConsume 1 100]
    (newTokenBucket_inv 10 10 0 (by norm_num) (by norm_num))
    (by intro op hop
        simp only [List.mem_cons, List.not_mem_nil, or_false] at hop
        rcases hop with h | h | h <;> subst h <;> simp [BucketOp.wf])

/-! ## Frame lemmas for the manager helpers -/

theorem updateSuccessStats_clients (m : Manager) (id : String) (t : Int)
    (now : ℚ) : (m.updateSuccessStats id t now).clients = m.clients := by
  unfold Manager.updateSuccessStats
  rcases lookupKey m.stats id with _ | s <;> rfl

theorem updateDroppedStats_clients (m : Manager) (id reason : String)
    (now : ℚ) : (m.updateDroppedStats id reason now).clients = m.clients := by
  unfold Manager.updateDroppedStats
  rcases lookupKey m.stats id with _ | s <;> rfl

theorem updateLatency_clients (m : Manager) (id : String) (ms : ℚ) :
    (m.UpdateLatency id ms).clients = m.clients := by
  unfold Manager.UpdateLatency
  rcases lookupKey m.stats id with _ | s <;> rfl

theorem ensureStats_clients (m : Manager) (id : String) (now : ℚ) :
    (m.ensureStats id now).clients = m.clients := by
  unfold Manager.ensureStats
  rcases lookupKey m.stats id with _ | s <;> rfl

theorem setRpmBucket_stats (m : Manager) (id : String) (b : TokenBucket) :
    (m.setRpmBucket id b).stats = m.stats := by
  unfold Manager.setRpmBucket
  rcases lookupKey m.clients id with _ | cl <;> rfl

theorem setTpmBucket_stats (m : Manager) (id : String) (b : TokenBucket) :
    (m.setTpmBucket id b).stats = m.stats := by
  unfold Manager.setTpmBucket
  rcases lookupKey m.clients id with _ | cl <;> rfl

theorem autoProvision_of_isSome {m : Manager} {id : String} (now : ℚ)
    (h : (lookupKey m.clients id).isSome = true) :
    m.autoProvision id now = m := by
  unfold Manager.autoProvision
  rw [if_pos h]

theorem ensureStats_of_isSome {m : Manager} {id : String} (now : ℚ)
    (h : (lookupKey m.stats id).isSome = true) :
    m.ensureStats id now = m := by
  unfold Manager.ensureStats
  rcases he : lookupKey m.stats id with _ | s
  · rw [he] at h
    simp at h
  · rfl

/-- The TPM half of a decision only ever reports the weight-dimension
error. -/
theorem tpmPhase_fst (m : Manager) (id : String) (cl : ClientLimiter)
    (t : Int) (now : ℚ) :
    (m.tpmPhase id cl t now).1 = none ∨
      (m.tpmPhase id cl t now).1 = some ErrTPMExceeded := by
  unfold Manager.tpmPhase
  rcases hT : cl.config.TPM with _ | tv <;> rcases hB : cl.tpmBucket with _ | b <;>
    simp only [hT, hB]
  · exact Or.inl trivial
  · exact Or.inl trivial
  · exact Or.inl trivial
  · split
    · exact Or.inr rfl
    · exact Or.inl rfl

/-- The provisioning prefix of `CheckAndConsume` on a completely unknown
client: an enabled, unlimited quota state and a zeroed statistics record. -/
theorem provision_of_unknown (m : Manager) (id : String) (now : ℚ)
    (hc : lookupKey m.clients id = none) (hs : lookupKey m.stats id = none) :
    (m.autoProvision id now).ensureStats id now =
      Manager.mk
        (upsert m.clients id
          (ClientLimiter.mk
            (ClientConfig.mk id none none true) none none))
        (upsert m.stats id (newClientStats id now)) := by
  unfold Manager.autoProvision
  rw [hc]
  simp only [Option.isSome_none, Bool.false_eq_true, if_false]
  unfold Manager.SetClientConfig Manager.ensureStats
  simp only [buildLimiter]
  rw [hs]
  simp [lookupKey_upsert_self]

/-! ## Totality and auto-provisioning of `decide` (claim C3) -/

/-- C3: `CheckAndConsume` always returns a definitive verdict — admitted
(`none`) or rejected with the request-rate or weight-rate reason — for every
client identifier and weight; and on a completely unknown client it
provisions an enabled, unlimited quota state plus a zeroed statistics
record, admits, leaves the zeroed record updated with exactly the one
success, and a subsequent `GetClientConfig` reports enabled with both
limits absent. -/
theorem checkAndConsume_total (m : Manager) (id : String) (w : Int) (now : ℚ)
    (hw : 0 ≤ w) :
    ((m.CheckAndConsume id w now).1 = none ∨
      (m.CheckAndConsume id w now).1 = some ErrRPMExceeded ∨
      (m.CheckAndConsume id w now).1 = some ErrTPMExceeded) ∧
    (lookupKey m.clients id = none → lookupKey m.stats id = none →
      (m.CheckAndConsume id w now).1 = none ∧
      (m.CheckAndConsume id w now).2.GetClientConfig id =
        some (ClientConfig.mk id none none true) ∧
      lookupKey (m.CheckAndConsume id w now).2.stats id =
        some { newClientStats id now with
          TotalRequests := 1
          SuccessRequests := 1
          TokensUsed := w
          LastRequestTime := now }) := by
  constructor
  · unfold Manager.CheckAndConsume
    rcases hlk : lookupKey ((m.autoProvision id now).ensureStats id now).clients id
      with _ | client
    · simp only [hlk]
      exact Or.inl trivial
    · simp only [hlk]
      by_cases hen : client.config.Enabled = false
      · rw [if_pos hen]
        exact Or.inl rfl
      · rw [if_neg hen]
        rcases hR : client.config.RPM with _ | rv <;>
          rcases hB : client.rpmBucket with _ | b <;>
          simp only [hR, hB]
        · rcases tpmPhase_fst ((m.autoProvision id now).ensureStats id now) id
            client w now with h | h
          · exact Or.inl h
          · exact Or.inr (Or.inr h)
        · rcases tpmPhase_fst ((m.autoProvision id now).ensureStats id now) id
            client w now with h | h
          · exact Or.inl h
          · exact Or.inr (Or.inr h)
        · rcases tpmPhase_fst ((m.autoProvision id now).ensureStats id now) id
            client w now with h | h
          · exact Or.inl h
          · exact Or.inr (Or.inr h)
        · split
          · exact Or.inr (Or.inl rfl)
          · rcases tpmPhase_fst
              (((m.autoProvision id now).ensureStats id now).setRpmBucket id
                ((b.TryConsume now 1).2)) id client w now with h | h
            · exact Or.inl h
            · exact Or.inr (Or.inr h)
  · intro hc hs
    unfold Manager.CheckAndConsume
    rw [provision_of_unknown m id now hc hs]
    simp [Manager.tpmPhase, Manager.updateSuccessStats, Manager.GetClientConfig,
      lookupKey_upsert_self, newClientStats]

/-- Witness for C3: the unknown client `carol` at weight 5 on a fresh
manager. -/
theorem checkAndConsume_total_witness :
    ((NewManager.CheckAndConsume "carol" 5 0).1 = none ∨
      (NewManager.CheckAndConsume "carol" 5 0).1 = some ErrRPMExceeded ∨
      (NewManager.CheckAndConsume "carol" 5 0).1 = some ErrTPMExceeded) ∧
    (NewManager.CheckAndConsume "carol" 5 0).1 = none ∧
    (NewManager.CheckAndConsume "carol" 5 0).2.GetClientConfig "carol" =
      some (ClientConfig.mk "carol" none none true) ∧
    lookupKey (NewManager.CheckAndConsume "carol" 5 0).2.stats "carol" =
      some { newClientStats "carol" 0 with
        TotalRequests := 1
        SuccessRequests := 1
        TokensUsed := 5
        LastRequestTime := 0 } :=
  ⟨(checkAndConsume_total NewManager "carol" 5 0 (by norm_num)).1,
    (checkAndConsume_total NewManager "carol" 5 0 (by norm_num)).2 rfl rfl⟩

/-! ## Buckets exist iff a positive limit is configured (claim C4) -/

theorem buildLimiter_wellFormed (cfg : ClientConfig) (now : ℚ) :
    (buildLimiter cfg now).WellFormed := by
  constructor
  · show (match cfg.RPM with
      | some r => if 0 < r then some (NewTokenBucket r r now) else none
      | none => none).isSome = limitPos cfg.RPM
    rcases cfg.RPM with _ | r
    · rfl
    · by_cases h : 0 < r <;> simp [limitPos, h]
  · show (match cfg.TPM with
      | some t => if 0 < t then some (NewTokenBucket t t now) else none
      | none => none).isSome = limitPos cfg.TPM
    rcases cfg.TPM with _ | t
    · rfl
    · by_cases h : 0 < t <;> simp [limitPos, h]

theorem bucketIff_of_clients_eq {m m' : Manager} (h : m'.clients = m.clients)
    (hb : m.BucketIff) : m'.BucketIff := by
  intro p hp
  exact hb p (h ▸ hp)

theorem bucketIff_setClientConfig {m : Manager} (cfg : ClientConfig) (now : ℚ)
    (hb : m.BucketIff) : (m.SetClientConfig cfg now).BucketIff := by
  intro p hp
  unfold Manager.SetClientConfig at hp
  rcases mem_upsert hp with h | h
  · rw [h]
    exact buildLimiter_wellFormed cfg now
  · exact hb p h

theorem bucketIff_setRpmBucket {m : Manager} {id : String} {b : TokenBucket}
    (hb : m.BucketIff)
    (hcl : ∀ cl, lookupKey m.clients id = some cl → cl.rpmBucket.isSome = true) :
    (m.setRpmBucket id b).BucketIff := by
  unfold Manager.setRpmBucket
  rcases hlk : lookupKey m.clients id with _ | cl
  · exact hb
  · intro p hp
    rcases mem_upsert hp with h | h
    · rw [h]
      have hwf := hb (id, cl) (lookupKey_mem hlk)
      refine ⟨?_, hwf.2⟩
      show (true : Bool) = limitPos cl.config.RPM
      rw [← hwf.1, hcl cl hlk]
    · exact hb p h

theorem bucketIff_setTpmBucket {m : Manager} {id : String} {b : TokenBucket}
    (hb : m.BucketIff)
    (hcl : ∀ cl, lookupKey m.clients id = some cl → cl.tpmBucket.isSome = true) :
    (m.setTpmBucket id b).BucketIff := by
  unfold Manager.setTpmBucket
  rcases hlk : lookupKey m.clients id with _ | cl
  · exact hb
  · intro p hp
    rcases mem_upsert hp with h | h
    · rw [h]
      have hwf := hb (id, cl) (lookupKey_mem hlk)
      refine ⟨hwf.1, ?_⟩
      show (true : Bool) = limitPos cl.config.TPM
      rw [← hwf.2, hcl cl hlk]
    · exact hb p h

theorem refreshRemaining_buckets (cl : ClientLimiter) (s : ClientStats)
    (now : ℚ) :
    (cl.refreshRemaining s now).1.config = cl.config ∧
    (cl.refreshRemaining s now).1.rpmBucket.isSome = cl.rpmBucket.isSome ∧
    (cl.refreshRemaining s now).1.tpmBucket.isSome = cl.tpmBucket.isSome := by
  unfold ClientLimiter.refreshRemaining
  rcases hR : cl.rpmBucket with _ | rb <;> rcases hT : cl.tpmBucket with _ | tb <;>
    simp [hR, hT]

theorem bucketIff_refreshClient {m : Manager} (id : String) (now : ℚ)
    (hb : m.BucketIff) : (m.refreshClient id now).BucketIff := by
  unfold Manager.refreshClient
  rcases hs : lookupKey m.stats id with _ | s
  · exact hb
  · rcases hc : lookupKey m.clients id with _ | cl
    · exact hb
    · intro p hp
      rcases mem_upsert hp with h | h
      · rw [h]
        have hwf := hb (id, cl) (lookupKey_mem hc)
        obtain ⟨he, hr, ht⟩ := refreshRemaining_buckets cl s now
        exact ⟨by rw [hr, he]; exact hwf.1, by rw [ht, he]; exact hwf.2⟩
      · exact hb p h

theorem bucketIff_tpmPhase {m : Manager} {id : String} {cl : ClientLimiter}
    {t : Int} {now : ℚ} (hb : m.BucketIff)
    (hcl : ∀ cl', lookupKey m.clients id = some cl' →
      cl'.tpmBucket.isSome = true ∨ cl.tpmBucket = cl'.tpmBucket) :
    ((m.tpmPhase id cl t now).2).BucketIff := by
  unfold Manager.tpmPhase
  rcases hT : cl.config.TPM with _ | tv <;> rcases hB : cl.tpmBucket with _ | b <;>
    simp only [hT, hB]
  · exact bucketIff_of_clients_eq (updateSuccessStats_clients _ _ _ _) hb
  · exact bucketIff_of_clients_eq (updateSuccessStats_clients _ _ _ _) hb
  · exact bucketIff_of_clients_eq (updateSuccessStats_clients _ _ _ _) hb
  · have hset : (m.setTpmBucket id ((b.TryConsume now t).2)).BucketIff := by
      refine bucketIff_setTpmBucket hb ?_
      intro cl' hcl'
      rcases hcl cl' hcl' with h | h
      · exact h
      · rw [← h, hB]
        rfl
    split
    · exact bucketIff_of_clients_eq (updateDroppedStats_clients _ _ _ _) hset
    · exact bucketIff_of_clients_eq (updateSuccessStats_clients _ _ _ _) hset

/-- Lemma: `CheckAndConsume` with its provisioning prefix abstracted out, for
rewriting. -/
theorem checkAndConsume_as_phase (m m1 : Manager) (id : String) (t : Int)
    (now : ℚ) (h : (m.autoProvision id now).ensureStats id now = m1) :
    m.CheckAndConsume id t now =
      match lookupKey m1.clients id with
      | none => (none, m1)
      | some client =>
        if client.config.Enabled = false then
          (none, m1.updateSuccessStats id t now)
        else
          match client.config.RPM, client.rpmBucket with
          | some _, some b =>
            if (b.TryConsume now 1).1 = false then
              (some ErrRPMExceeded,
                (m1.setRpmBucket id
                  ((b.TryConsume now 1).2)).updateDroppedStats id "rpm" now)
            else
              (m1.setRpmBucket id ((b.TryConsume now 1).2)).tpmPhase id client
                t now
          | _, _ => m1.tpmPhase id client t now := by
  subst h
  rfl

theorem bucketIff_autoProvision_ensure {m : Manager} (id : String) (now : ℚ)
    (hb : m.BucketIff) :
    ((m.autoProvision id now).ensureStats id now).BucketIff := by
  have h1 : (m.autoProvision id now).BucketIff := by
    unfold Manager.autoProvision
    split
    · exact hb
    · exact bucketIff_setClientConfig _ now hb
  exact bucketIff_of_clients_eq (ensureStats_clients _ _ _) h1

theorem bucketIff_checkAndConsume {m : Manager} (id : String) (w : Int)
    (now : ℚ) (hb : m.BucketIff) :
    ((m.CheckAndConsume id w now).2).BucketIff := by
  set m1 := (m.autoProvision id now).ensureStats id now with hm1
  have hphase : m1.BucketIff := bucketIff_autoProvision_ensure id now hb
  rw [checkAndConsume_as_phase m m1 id w now hm1.symm]
  rcases hlk : lookupKey m1.clients id with _ | client
  · simp only [hlk]
    exact hphase
  · simp only [hlk]
    by_cases hen : client.config.Enabled = false
    · rw [if_pos hen]
      exact bucketIff_of_clients_eq (updateSuccessStats_clients _ _ _ _) hphase
    · rw [if_neg hen]
      have htpm : ∀ cl', lookupKey m1.clients id = some cl' →
          cl'.tpmBucket.isSome = true ∨ client.tpmBucket = cl'.tpmBucket := by
        intro cl' hcl'
        rw [hlk] at hcl'
        cases hcl'
        exact Or.inr rfl
      rcases hR : client.config.RPM with _ | rv <;>
        rcases hB : client.rpmBucket with _ | b <;>
        simp only [hR, hB]
      · exact bucketIff_tpmPhase hphase htpm
      · exact bucketIff_tpmPhase hphase htpm
      · exact bucketIff_tpmPhase hphase htpm
      · have hset : (m1.setRpmBucket id ((b.TryConsume now 1).2)).BucketIff := by
          refine bucketIff_setRpmBucket hphase ?_
          intro cl' hcl'
          rw [hlk] at hcl'
          cases hcl'
          rw [hB]
          rfl
        have htpm2 : ∀ cl',
            lookupKey (m1.setRpmBucket id ((b.TryConsume now 1).2)).clients id =
              some cl' →
            cl'.tpmBucket.isSome = true ∨ client.tpmBucket = cl'.tpmBucket := by
          intro cl' hcl'
          unfold Manager.setRpmBucket at hcl'
          rw [hlk] at hcl'
          simp only [lookupKey_upsert_self] at hcl'
          cases hcl'
          exact Or.inr rfl
        split
        · exact bucketIff_of_clients_eq (updateDroppedStats_clients _ _ _ _) hset
        · exact bucketIff_tpmPhase hset htpm2

theorem bucketIff_foldl_refresh (now : ℚ) :
    ∀ (ks : List String) (m : Manager), m.BucketIff →
      (ks.foldl (fun acc k => acc.refreshClient k now) m).BucketIff := by
  intro ks
  induction ks with
  | nil => exact fun m hm => hm
  | cons k t ih => exact fun m hm => ih _ (bucketIff_refreshClient k now hm)

theorem bucketIff_applyOp {m : Manager} (op : Op) (hb : m.BucketIff) :
    (m.applyOp op).BucketIff := by
  cases op with
  | decide id w now => exact bucketIff_checkAndConsume id w now hb
  | setConfig cfg now => exact bucketIff_setClientConfig cfg now hb
  | getConfig id => exact hb
  | getStats id now =>
    show ((m.GetClientStats id now).2).BucketIff
    unfold Manager.GetClientStats
    rcases hs : lookupKey m.stats id with _ | s
    · exact hb
    · exact bucketIff_refreshClient id now hb
  | listConfigs => exact hb
  | listStats now =>
    show ((m.GetAllStats now).2).BucketIff
    unfold Manager.GetAllStats
    exact bucketIff_foldl_refresh now (m.stats.map Prod.fst) m hb
  | deleteClient id =>
    show ((m.DeleteClient id).2).BucketIff
    unfold Manager.DeleteClient
    split
    · intro p hp
      exact hb p (mem_eraseKey hp)
    · exact hb
  | recordLatency id ms =>
    exact bucketIff_of_clients_eq (updateLatency_clients _ _ _) hb

theorem bucketIff_runOps (ops : List Op) : (runOps NewManager ops).BucketIff := by
  have h : ∀ (m : Manager), m.BucketIff → (runOps m ops).BucketIff := by
    induction ops with
    | nil => exact fun m hm => hm
    | cons op t ih => exact fun m hm => ih _ (bucketIff_applyOp op hm)
  exact h NewManager (by intro p hp; simp [NewManager] at hp)

/-- Lemma: `tpmPhase` admits outright when the weight dimension is unlimited or
bucketless. -/
theorem tpmPhase_fst_of_unlimited (m : Manager) (id : String)
    (cl : ClientLimiter) (t : Int) (now : ℚ)
    (h : cl.config.TPM = none ∨ cl.tpmBucket = none) :
    (m.tpmPhase id cl t now).1 = none := by
  unfold Manager.tpmPhase
  rcases hT : cl.config.TPM with _ | tv <;> rcases hB : cl.tpmBucket with _ | b <;>
    simp only [hT, hB]
  rcases h with h | h
  · rw [hT] at h
    cases h
  · rw [hB] at h
    cases h

/-- C4: in every reachable state a bucket exists exactly when its dimension's
limit is configured and strictly positive; and `CheckAndConsume` never
rejects on a dimension whose limit is absent or whose bucket is missing
(hence in particular on a dimension with a non-positive configured limit),
for any weight ≥ 0. -/
theorem unlimited_dimension_never_rejects (m : Manager) (id : String) (w : Int)
    (now : ℚ) (hw : 0 ≤ w) :
    (∀ ops, (runOps NewManager ops).BucketIff) ∧
    (∀ cl, lookupKey m.clients id = some cl →
      (cl.config.RPM = none ∨ cl.rpmBucket = none) →
      (m.CheckAndConsume id w now).1 ≠ some ErrRPMExceeded) ∧
    (∀ cl, lookupKey m.clients id = some cl →
      (cl.config.TPM = none ∨ cl.tpmBucket = none) →
      (m.CheckAndConsume id w now).1 ≠ some ErrTPMExceeded) := by
  have hframe : ∀ cl, lookupKey m.clients id = some cl →
      lookupKey ((m.autoProvision id now).ensureStats id now).clients id =
        some cl := by
    intro cl hcl
    rw [ensureStats_clients, autoProvision_of_isSome now (by rw [hcl]; rfl)]
    exact hcl
  refine ⟨bucketIff_runOps, ?_, ?_⟩
  · intro cl hcl hdim
    set m1 := (m.autoProvision id now).ensureStats id now with hm1
    rw [checkAndConsume_as_phase m m1 id w now hm1.symm]
    simp only [hframe cl hcl]
    by_cases hen : cl.config.Enabled = false
    · rw [if_pos hen]
      simp
    · rw [if_neg hen]
      have htpm := tpmPhase_fst m1 id cl w now
      rcases hR : cl.config.RPM with _ | rv <;> rcases hB : cl.rpmBucket with _ | b <;>
        simp only [hR, hB]
      · rcases htpm with h | h <;> rw [h] <;> simp [ErrRPMExceeded, ErrTPMExceeded]
      · rcases htpm with h | h <;> rw [h] <;> simp [ErrRPMExceeded, ErrTPMExceeded]
      · rcases htpm with h | h <;> rw [h] <;> simp [ErrRPMExceeded, ErrTPMExceeded]
      · rcases hdim with h | h
        · rw [hR] at h
          cases h
        · rw [hB] at h
          cases h
  · intro cl hcl hdim
    set m1 := (m.autoProvision id now).ensureStats id now with hm1
    rw [checkAndConsume_as_phase m m1 id w now hm1.symm]
    simp only [hframe cl hcl]
    by_cases hen : cl.config.Enabled = false
    · rw [if_pos hen]
      simp
    · rw [if_neg hen]
      rcases hR : cl.config.RPM with _ | rv <;> rcases hB : cl.rpmBucket with _ | b <;>
        simp only [hR, hB]
      · rw [tpmPhase_fst_of_unlimited m1 id cl w now hdim]
        simp
      · rw [tpmPhase_fst_of_unlimited m1 id cl w now hdim]
        simp
      · rw [tpmPhase_fst_of_unlimited m1 id cl w now hdim]
        simp
      · split
        · simp [ErrRPMExceeded, ErrTPMExceeded]
        · rw [tpmPhase_fst_of_unlimited _ id cl w now hdim]
          simp

/-- Witness for C4: a client configured with no request limit and a
non-positive weight limit is never rejected on either dimension. -/
theorem unlimited_dimension_never_rejects_witness :
    (runOps NewManager
      [.setConfig (ClientConfig.mk "a" none (some 0) true) 0,
        .decide "a" 3 0]).BucketIff ∧
    ((NewManager.SetClientConfig (ClientConfig.mk "a" none (some 0) true)
        0).CheckAndConsume "a" 3 0).1 ≠ some ErrRPMExceeded ∧
    ((NewManager.SetClientConfig (ClientConfig.mk "a" none (some 0) true)
        0).CheckAndConsume "a" 3 0).1 ≠ some ErrTPMExceeded := by
  refine ⟨(unlimited_dimension_never_rejects
      (NewManager.SetClientConfig (ClientConfig.mk "a" none (some 0) true) 0)
      "a" 3 0 (by norm_num)).1
      [.setConfig (ClientConfig.mk "a" none (some 0) true) 0,
        .decide "a" 3 0], ?_, ?_⟩
  · exact (unlimited_dimension_never_rejects
      (NewManager.SetClientConfig (ClientConfig.mk "a" none (some 0) true) 0)
      "a" 3 0 (by norm_num)).2.1
      (buildLimiter (ClientConfig.mk "a" none (some 0) true) 0) rfl
      (Or.inl rfl)
  · exact (unlimited_dimension_never_rejects
      (NewManager.SetClientConfig (ClientConfig.mk "a" none (some 0) true) 0)
      "a" 3 0 (by norm_num)).2.2
      (buildLimiter (ClientConfig.mk "a" none (some 0) true) 0) rfl
      (Or.inr rfl)

/-! ## Statistics counter equations (claim C5) -/

theorem newClientStats_inv (id : String) (now : ℚ) :
    (newClientStats id now).Inv := by
  constructor <;> rfl

theorem statsInv_of_stats_eq {m m' : Manager} (h : m'.stats = m.stats)
    (hs : m.StatsInv) : m'.StatsInv := by
  intro p hp
  exact hs p (h ▸ hp)

theorem statsInv_upsert_list {l : List (String × ClientStats)} {k : String}
    {v : ClientStats} (h : ∀ p ∈ l, ClientStats.Inv p.2) (hv : v.Inv) :
    ∀ p ∈ upsert l k v, ClientStats.Inv p.2 := by
  intro p hp
  rcases mem_upsert hp with h' | h'
  · rw [h']
    exact hv
  · exact h p h'

theorem statsInv_updateSuccessStats {m : Manager} (id : String) (t : Int)
    (now : ℚ) (hs : m.StatsInv) : (m.updateSuccessStats id t now).StatsInv := by
  unfold Manager.updateSuccessStats
  rcases hlk : lookupKey m.stats id with _ | s
  · exact hs
  · have hsi := hs (id, s) (lookupKey_mem hlk)
    have h1 : s.TotalRequests = s.SuccessRequests + s.DroppedRequests := hsi.1
    have h2 : s.DroppedRequests = s.RPMDropped + s.TPMDropped := hsi.2
    intro p hp
    refine statsInv_upsert_list hs ?_ p hp
    refine ⟨?_, ?_⟩
    · show s.TotalRequests + 1 = s.SuccessRequests + 1 + s.DroppedRequests
      omega
    · show s.DroppedRequests = s.RPMDropped + s.TPMDropped
      exact h2

theorem statsInv_updateDroppedStats {m : Manager} (id : String) (now : ℚ)
    {reason : String} (hr : reason = "rpm" ∨ reason = "tpm")
    (hs : m.StatsInv) : (m.updateDroppedStats id reason now).StatsInv := by
  unfold Manager.updateDroppedStats
  rcases hlk : lookupKey m.stats id with _ | s
  · exact hs
  · have hsi := hs (id, s) (lookupKey_mem hlk)
    have h1 : s.TotalRequests = s.SuccessRequests + s.DroppedRequests := hsi.1
    have h2 : s.DroppedRequests = s.RPMDropped + s.TPMDropped := hsi.2
    rcases hr with hr | hr <;> subst hr
    · intro p hp
      simp only [if_pos rfl] at hp
      refine statsInv_upsert_list hs ?_ p hp
      refine ⟨?_, ?_⟩
      · show s.TotalRequests + 1 = s.SuccessRequests + (s.DroppedRequests + 1)
        omega
      · show s.DroppedRequests + 1 = s.RPMDropped + 1 + s.TPMDropped
        omega
    · intro p hp
      have hne : ¬ (("tpm" : String) = "rpm") := by decide
      simp only [if_neg hne, if_pos rfl] at hp
      refine statsInv_upsert_list hs ?_ p hp
      refine ⟨?_, ?_⟩
      · show s.TotalRequests + 1 = s.SuccessRequests + (s.DroppedRequests + 1)
        omega
      · show s.DroppedRequests + 1 = s.RPMDropped + (s.TPMDropped + 1)
        omega

theorem statsInv_setClientConfig {m : Manager} (cfg : ClientConfig) (now : ℚ)
    (hs : m.StatsInv) : (m.SetClientConfig cfg now).StatsInv := by
  unfold Manager.SetClientConfig
  rcases hlk : lookupKey m.stats cfg.ClientID with _ | s
  · intro p hp
    simp only [hlk] at hp
    exact statsInv_upsert_list hs (newClientStats_inv _ _) p hp
  · intro p hp
    simp only [hlk] at hp
    exact hs p hp

theorem statsInv_ensureStats {m : Manager} (id : String) (now : ℚ)
    (hs : m.StatsInv) : (m.ensureStats id now).StatsInv := by
  unfold Manager.ensureStats
  rcases hlk : lookupKey m.stats id with _ | s
  · intro p hp
    simp only at hp
    exact statsInv_upsert_list hs (newClientStats_inv _ _) p hp
  · exact hs

/-- The refresh step rewrites only the two remaining-quota fields of the
statistics record. -/
theorem refreshRemaining_stats (cl : ClientLimiter) (s : ClientStats)
    (now : ℚ) :
    ∃ r1 r2, (cl.refreshRemaining s now).2 =
      { s with RPMRemaining := r1, TPMRemaining := r2 } := by
  unfold ClientLimiter.refreshRemaining
  rcases hR : cl.rpmBucket with _ | rb <;> rcases hT : cl.tpmBucket with _ | tb <;>
    simp only [hR, hT]
  · exact ⟨s.RPMRemaining, s.TPMRemaining, rfl⟩
  · exact ⟨s.RPMRemaining, (tb.GetRemainingTokens now).1, rfl⟩
  · exact ⟨(rb.GetRemainingTokens now).1, s.TPMRemaining, rfl⟩
  · exact ⟨(rb.GetRemainingTokens now).1, (tb.GetRemainingTokens now).1, rfl⟩

theorem statsInv_refreshClient {m : Manager} (id : String) (now : ℚ)
    (hs : m.StatsInv) : (m.refreshClient id now).StatsInv := by
  unfold Manager.refreshClient
  rcases h1 : lookupKey m.stats id with _ | s
  · exact hs
  · rcases h2 : lookupKey m.clients id with _ | cl
    · exact hs
    · have hsi := hs (id, s) (lookupKey_mem h1)
      intro p hp
      simp only at hp
      refine statsInv_upsert_list hs ?_ p hp
      obtain ⟨r1, r2, heq⟩ := refreshRemaining_stats cl s now
      rw [heq]
      exact ⟨hsi.1, hsi.2⟩

theorem statsInv_foldl_refresh (now : ℚ) :
    ∀ (ks : List String) (m : Manager), m.StatsInv →
      (ks.foldl (fun acc k => acc.refreshClient k now) m).StatsInv := by
  intro ks
  induction ks with
  | nil => exact fun m hm => hm
  | cons k t ih => exact fun m hm => ih _ (statsInv_refreshClient k now hm)

theorem statsInv_tpmPhase {m : Manager} {id : String} {cl : ClientLimiter}
    {t : Int} {now : ℚ} (hs : m.StatsInv) :
    ((m.tpmPhase id cl t now).2).StatsInv := by
  unfold Manager.tpmPhase
  rcases hT : cl.config.TPM with _ | tv <;> rcases hB : cl.tpmBucket with _ | b <;>
    simp only [hT, hB]
  · exact statsInv_updateSuccessStats id t now hs
  · exact statsInv_updateSuccessStats id t now hs
  · exact statsInv_updateSuccessStats id t now hs
  · have hset : (m.setTpmBucket id ((b.TryConsume now t).2)).StatsInv :=
      statsInv_of_stats_eq (setTpmBucket_stats _ _ _) hs
    split
    · exact statsInv_updateDroppedStats id now (Or.inr rfl) hset
    · exact statsInv_updateSuccessStats id t now hset

theorem statsInv_checkAndConsume {m : Manager} (id : String) (w : Int)
    (now : ℚ) (hs : m.StatsInv) :
    ((m.CheckAndConsume id w now).2).StatsInv := by
  set m1 := (m.autoProvision id now).ensureStats id now with hm1
  have hphase : m1.StatsInv := by
    have h1 : (m.autoProvision id now).StatsInv := by
      unfold Manager.autoProvision
      split
      · exact hs
      · exact statsInv_setClientConfig _ now hs
    exact statsInv_ensureStats id now h1
  rw [checkAndConsume_as_phase m m1 id w now hm1.symm]
  rcases hlk : lookupKey m1.clients id with _ | client
  · simp only [hlk]
    exact hphase
  · simp only [hlk]
    by_cases hen : client.config.Enabled = false
    · rw [if_pos hen]
      exact statsInv_updateSuccessStats id w now hphase
    · rw [if_neg hen]
      rcases hR : client.config.RPM with _ | rv <;>
        rcases hB : client.rpmBucket with _ | b <;>
        simp only [hR, hB]
      · exact statsInv_tpmPhase hphase
      · exact statsInv_tpmPhase hphase
      · exact statsInv_tpmPhase hphase
      · have hset : (m1.setRpmBucket id ((b.TryConsume now 1).2)).StatsInv :=
          statsInv_of_stats_eq (setRpmBucket_stats _ _ _) hphase
        split
        · exact statsInv_updateDroppedStats id now (Or.inl rfl) hset
        · exact statsInv_tpmPhase hset

theorem statsInv_applyOp {m : Manager} (op : Op) (hs : m.StatsInv) :
    (m.applyOp op).StatsInv := by
  cases op with
  | decide id w now => exact statsInv_checkAndConsume id w now hs
  | setConfig cfg now => exact statsInv_setClientConfig cfg now hs
  | getConfig id => exact hs
  | getStats id now =>
    show ((m.GetClientStats id now).2).StatsInv
    unfold Manager.GetClientStats
    rcases h : lookupKey m.stats id with _ | s
    · exact hs
    · exact statsInv_refreshClient id now hs
  | listConfigs => exact hs
  | listStats now =>
    show ((m.GetAllStats now).2).StatsInv
    unfold Manager.GetAllStats
    exact statsInv_foldl_refresh now (m.stats.map Prod.fst) m hs
  | deleteClient id =>
    show ((m.DeleteClient id).2).StatsInv
    unfold Manager.DeleteClient
    split
    · intro p hp
      exact hs p (mem_eraseKey hp)
    · exact hs
  | recordLatency id ms =>
    show (m.UpdateLatency id ms).StatsInv
    unfold Manager.UpdateLatency
    rcases hlk : lookupKey m.stats id with _ | s
    · exact hs
    · have hsi := hs (id, s) (lookupKey_mem hlk)
      intro p hp
      simp only at hp
      refine statsInv_upsert_list hs ?_ p hp
      split
      · exact ⟨hsi.1, hsi.2⟩
      · exact ⟨hsi.1, hsi.2⟩

/-- C5: in every state reachable from a fresh manager, every statistics
record satisfies `total = success + dropped` and
`dropped = rpmDropped + tpmDropped`; and every public operation preserves
both equations. -/
theorem stats_equations_invariant :
    (∀ ops, (runOps NewManager ops).StatsInv) ∧
    (∀ (m : Manager), m.StatsInv → ∀ op, (m.applyOp op).StatsInv) := by
  constructor
  · intro ops
    have h : ∀ (m : Manager), m.StatsInv → (runOps m ops).StatsInv := by
      induction ops with
      | nil => exact fun m hm => hm
      | cons op t ih => exact fun m hm => ih _ (statsInv_applyOp op hm)
    exact h NewManager (by intro p hp; simp [NewManager] at hp)
  · intro m hm op
    exact statsInv_applyOp op hm

/-- Witness for C5: the equations hold after an admission decision on a
fresh manager, and one decision step preserves them from the empty state. -/
theorem stats_equations_invariant_witness :
    (runOps NewManager [.decide "a" 1 0]).StatsInv ∧
    (NewManager.applyOp (.decide "a" 1 0)).StatsInv :=
  ⟨stats_equations_invariant.1 [.decide "a" 1 0],
    stats_equations_invariant.2 NewManager
      (by intro p hp; simp [NewManager] at hp) (.decide "a" 1 0)⟩

/-! ## The two registries share their key set (claim C10) -/

theorem isSome_upsert {α : Type} (l : List (String × α)) (k : String) (v : α)
    (id : String) :
    (lookupKey (upsert l k v) id).isSome =
      if k = id then true else (lookupKey l id).isSome := by
  rw [lookupKey_upsert]
  split <;> rfl

theorem isSome_eraseKey {α : Type} (l : List (String × α)) (k id : String) :
    (lookupKey (eraseKey l k) id).isSome =
      if k = id then false else (lookupKey l id).isSome := by
  rw [lookupKey_eraseKey]
  split <;> rfl

/-- Upserting a key that is already present does not change which keys are
present. -/
theorem isSome_upsert_of_present {α : Type} {l : List (String × α)}
    {k : String} (v : α) (h : (lookupKey l k).isSome = true) (id : String) :
    (lookupKey (upsert l k v) id).isSome = (lookupKey l id).isSome := by
  rw [isSome_upsert]
  split
  · rename_i he
    subst he
    exact h.symm
  · rfl

theorem sameKeys_setClientConfig {m : Manager} (cfg : ClientConfig) (now : ℚ)
    (h : m.SameKeys) : (m.SetClientConfig cfg now).SameKeys := by
  intro id'
  unfold Manager.SetClientConfig
  rcases hlk : lookupKey m.stats cfg.ClientID with _ | s
  · simp only
    rw [isSome_upsert, isSome_upsert]
    by_cases hid : cfg.ClientID = id'
    · simp [hid]
    · rw [if_neg hid, if_neg hid]
      exact h id'
  · simp only
    rw [isSome_upsert]
    by_cases hid : cfg.ClientID = id'
    · subst hid
      rw [if_pos rfl, hlk]
      rfl
    · rw [if_neg hid]
      exact h id'

theorem sameKeys_ensureStats {m : Manager} {id : String} (now : ℚ)
    (h : m.SameKeys) (hc : (lookupKey m.clients id).isSome = true) :
    (m.ensureStats id now).SameKeys := by
  unfold Manager.ensureStats
  rcases hlk : lookupKey m.stats id with _ | s
  · intro id'
    simp only
    rw [isSome_upsert]
    by_cases hid : id = id'
    · subst hid
      rw [if_pos rfl]
      exact hc
    · rw [if_neg hid]
      exact h id'
  · exact h

theorem sameKeys_autoProvision {m : Manager} (id : String) (now : ℚ)
    (h : m.SameKeys) :
    (m.autoProvision id now).SameKeys ∧
    (lookupKey (m.autoProvision id now).clients id).isSome = true := by
  unfold Manager.autoProvision
  rcases hc : (lookupKey m.clients id).isSome with _ | _
  · rw [if_neg (by decide)]
    refine ⟨sameKeys_setClientConfig _ now h, ?_⟩
    show (lookupKey (upsert m.clients id
      (buildLimiter (ClientConfig.mk id none none true) now)) id).isSome = true
    rw [lookupKey_upsert_self]
    rfl
  · rw [if_pos rfl]
    exact ⟨h, hc⟩

theorem sameKeys_updateSuccessStats {m : Manager} (id : String) (t : Int)
    (now : ℚ) (h : m.SameKeys) : (m.updateSuccessStats id t now).SameKeys := by
  unfold Manager.updateSuccessStats
  rcases hlk : lookupKey m.stats id with _ | s
  · exact h
  · intro id'
    simp only
    rw [isSome_upsert_of_present _ (by rw [hlk]; rfl)]
    exact h id'

theorem sameKeys_updateDroppedStats {m : Manager} (id reason : String)
    (now : ℚ) (h : m.SameKeys) :
    (m.updateDroppedStats id reason now).SameKeys := by
  unfold Manager.updateDroppedStats
  rcases hlk : lookupKey m.stats id with _ | s
  · exact h
  · intro id'
    simp only
    rw [isSome_upsert_of_present _ (by rw [hlk]; rfl)]
    exact h id'

theorem sameKeys_setRpmBucket {m : Manager} (id : String) (b : TokenBucket)
    (h : m.SameKeys) : (m.setRpmBucket id b).SameKeys := by
  unfold Manager.setRpmBucket
  rcases hlk : lookupKey m.clients id with _ | cl
  · exact h
  · intro id'
    simp only
    rw [isSome_upsert_of_present _ (by rw [hlk]; rfl)]
    exact h id'

theorem sameKeys_setTpmBucket {m : Manager} (id : String) (b : TokenBucket)
    (h : m.SameKeys) : (m.setTpmBucket id b).SameKeys := by
  unfold Manager.setTpmBucket
  rcases hlk : lookupKey m.clients id with _ | cl
  · exact h
  · intro id'
    simp only
    rw [isSome_upsert_of_present _ (by rw [hlk]; rfl)]
    exact h id'

theorem sameKeys_refreshClient {m : Manager} (id : String) (now : ℚ)
    (h : m.SameKeys) : (m.refreshClient id now).SameKeys := by
  unfold Manager.refreshClient
  rcases h1 : lookupKey m.stats id with _ | s
  · exact h
  · rcases h2 : lookupKey m.clients id with _ | cl
    · exact h
    · intro id'
      simp only
      rw [isSome_upsert_of_present _ (by rw [h2]; rfl),
        isSome_upsert_of_present _ (by rw [h1]; rfl)]
      exact h id'

theorem sameKeys_foldl_refresh (now : ℚ) :
    ∀ (ks : List String) (m : Manager), m.SameKeys →
      (ks.foldl (fun acc k => acc.refreshClient k now) m).SameKeys := by
  intro ks
  induction ks with
  | nil => exact fun m hm => hm
  | cons k t ih => exact fun m hm => ih _ (sameKeys_refreshClient k now hm)

theorem sameKeys_tpmPhase {m : Manager} {id : String} {cl : ClientLimiter}
    {t : Int} {now : ℚ} (h : m.SameKeys) :
    ((m.tpmPhase id cl t now).2).SameKeys := by
  unfold Manager.tpmPhase
  rcases hT : cl.config.TPM with _ | tv <;> rcases hB : cl.tpmBucket with _ | b <;>
    simp only [hT, hB]
  · exact sameKeys_updateSuccessStats id t now h
  · exact sameKeys_updateSuccessStats id t now h
  · exact sameKeys_updateSuccessStats id t now h
  · have hset := sameKeys_setTpmBucket id ((b.TryConsume now t).2) h
    split
    · exact sameKeys_updateDroppedStats id "tpm" now hset
    · exact sameKeys_updateSuccessStats id t now hset

theorem sameKeys_checkAndConsume {m : Manager} (id : String) (w : Int)
    (now : ℚ) (h : m.SameKeys) : ((m.CheckAndConsume id w now).2).SameKeys := by
  set m1 := (m.autoProvision id now).ensureStats id now with hm1
  have hphase : m1.SameKeys := by
    obtain ⟨hap, hc⟩ := sameKeys_autoProvision id now h
    exact sameKeys_ensureStats now hap hc
  rw [checkAndConsume_as_phase m m1 id w now hm1.symm]
  rcases hlk : lookupKey m1.clients id with _ | client
  · simp only [hlk]
    exact hphase
  · simp only [hlk]
    by_cases hen : client.config.Enabled = false
    · rw [if_pos hen]
      exact sameKeys_updateSuccessStats id w now hphase
    · rw [if_neg hen]
      rcases hR : client.config.RPM with _ | rv <;>
        rcases hB : client.rpmBucket with _ | b <;>
        simp only [hR, hB]
      · exact sameKeys_tpmPhase hphase
      · exact sameKeys_tpmPhase hphase
      · exact sameKeys_tpmPhase hphase
      · have hset := sameKeys_setRpmBucket id ((b.TryConsume now 1).2) hphase
        split
        · exact sameKeys_updateDroppedStats id "rpm" now hset
        · exact sameKeys_tpmPhase hset

theorem sameKeys_applyOp {m : Manager} (op : Op) (h : m.SameKeys) :
    (m.applyOp op).SameKeys := by
  cases op with
  | decide id w now => exact sameKeys_checkAndConsume id w now h
  | setConfig cfg now => exact sameKeys_setClientConfig cfg now h
  | getConfig id => exact h
  | getStats id now =>
    show ((m.GetClientStats id now).2).SameKeys
    unfold Manager.GetClientStats
    rcases hlk : lookupKey m.stats id with _ | s
    · exact h
    · exact sameKeys_refreshClient id now h
  | listConfigs => exact h
  | listStats now =>
    show ((m.GetAllStats now).2).SameKeys
    unfold Manager.GetAllStats
    exact sameKeys_foldl_refresh now (m.stats.map Prod.fst) m h
  | deleteClient id =>
    show ((m.DeleteClient id).2).SameKeys
    unfold Manager.DeleteClient
    split
    · intro id'
      simp only
      rw [isSome_eraseKey, isSome_eraseKey]
      by_cases hid : id = id'
      · simp [hid]
      · rw [if_neg hid, if_neg hid]
        exact h id'
    · exact h
  | recordLatency id ms =>
    show (m.UpdateLatency id ms).SameKeys
    unfold Manager.UpdateLatency
    rcases hlk : lookupKey m.stats id with _ | s
    · exact h
    · intro id'
      simp only
      rw [isSome_upsert_of_present _ (by rw [hlk]; rfl)]
      exact h id'

/-- C10: in every state reachable from a fresh manager by public
operations, a client identifier is registered in the quota-state registry
exactly when it is registered in the statistics registry — creations and
deletions keep the two registries' key sets identical. -/
theorem registries_same_keys (ops : List Op) :
    (runOps NewManager ops).SameKeys := by
  have h : ∀ (m : Manager), m.SameKeys → (runOps m ops).SameKeys := by
    induction ops with
    | nil => exact fun m hm => hm
    | cons op t ih => exact fun m hm => ih _ (sameKeys_applyOp op hm)
  exact h NewManager (fun id => rfl)

/-! ## Stats reads only touch the remaining-quota gauges (claim C9) -/

theorem sameCounters_refl (a : ClientStats) : sameCounters a a :=
  ⟨rfl, rfl, rfl, rfl, rfl, rfl, rfl, rfl, rfl⟩

theorem sameCounters_trans {a b c : ClientStats} (h1 : sameCounters a b)
    (h2 : sameCounters b c) : sameCounters a c := by
  obtain ⟨e1, e2, e3, e4, e5, e6, e7, e8, e9⟩ := h1
  obtain ⟨f1, f2, f3, f4, f5, f6, f7, f8, f9⟩ := h2
  exact ⟨e1.trans f1, e2.trans f2, e3.trans f3, e4.trans f4, e5.trans f5,
    e6.trans f6, e7.trans f7, e8.trans f8, e9.trans f9⟩

theorem sameCounters_remaining_update (s : ClientStats) (r1 r2 : Int) :
    sameCounters s { s with RPMRemaining := r1, TPMRemaining := r2 } :=
  ⟨rfl, rfl, rfl, rfl, rfl, rfl, rfl, rfl, rfl⟩

theorem lookup_refreshClient_counters {m : Manager} (k : String) (now : ℚ)
    (id : String) {s' : ClientStats}
    (h : lookupKey (m.refreshClient k now).stats id = some s') :
    ∃ s, lookupKey m.stats id = some s ∧ sameCounters s s' := by
  unfold Manager.refreshClient at h
  rcases h1 : lookupKey m.stats k with _ | s0
  · rw [h1] at h
    exact ⟨s', h, sameCounters_refl s'⟩
  · rw [h1] at h
    rcases h2 : lookupKey m.clients k with _ | cl
    · rw [h2] at h
      exact ⟨s', h, sameCounters_refl s'⟩
    · rw [h2] at h
      simp only [lookupKey_upsert] at h
      by_cases hk : k = id
      · rw [if_pos hk] at h
        cases h
        subst hk
        obtain ⟨r1, r2, heq⟩ := refreshRemaining_stats cl s0 now
        rw [heq]
        exact ⟨s0, h1, sameCounters_remaining_update s0 r1 r2⟩
      · rw [if_neg hk] at h
        exact ⟨s', h, sameCounters_refl s'⟩

theorem lookup_foldl_refresh_counters (now : ℚ) :
    ∀ (ks : List String) (m : Manager) (id : String) (s' : ClientStats),
      lookupKey ((ks.foldl (fun acc k => acc.refreshClient k now) m)).stats id
        = some s' →
      ∃ s, lookupKey m.stats id = some s ∧ sameCounters s s' := by
  intro ks
  induction ks with
  | nil => exact fun m id s' h => ⟨s', h, sameCounters_refl s'⟩
  | cons k t ih =>
    intro m id s' h
    obtain ⟨s1, hs1, hc1⟩ := ih _ id s' h
    obtain ⟨s0, hs0, hc0⟩ := lookup_refreshClient_counters k now id hs1
    exact ⟨s0, hs0, sameCounters_trans hc0 hc1⟩

/-- The record a `GetClientStats` call returns is the one registered in the
state it leaves behind. -/
theorem getClientStats_fst_lookup (m : Manager) (id : String) (t : ℚ) :
    (m.GetClientStats id t).1 =
      lookupKey ((m.GetClientStats id t).2).stats id := by
  unfold Manager.GetClientStats
  rcases hlk : lookupKey m.stats id with _ | s
  · exact hlk.symm
  · rfl

theorem counters_getClientStats {m : Manager} (id : String) (t : ℚ)
    (id' : String) {s' : ClientStats}
    (h : lookupKey ((m.GetClientStats id t).2).stats id' = some s') :
    ∃ s, lookupKey m.stats id' = some s ∧ sameCounters s s' := by
  unfold Manager.GetClientStats at h
  rcases hlk : lookupKey m.stats id with _ | s0
  · rw [hlk] at h
    exact ⟨s', h, sameCounters_refl s'⟩
  · rw [hlk] at h
    exact lookup_refreshClient_counters id t id' h

theorem getAllStats_fst (m : Manager) (t : ℚ) :
    (m.GetAllStats t).1 = ((m.GetAllStats t).2).stats := rfl

theorem counters_getAllStats {m : Manager} (t : ℚ) (id : String)
    {s' : ClientStats}
    (h : lookupKey ((m.GetAllStats t).2).stats id = some s') :
    ∃ s, lookupKey m.stats id = some s ∧ sameCounters s s' := by
  unfold Manager.GetAllStats at h
  exact lookup_foldl_refresh_counters t (m.stats.map Prod.fst) m id s' h

/-- C9: repeated `GetClientStats` (and repeated `GetAllStats`) calls for the
same client with no intervening mutating operation return records that agree
on every consumption counter, the last-request timestamp and the latency
average — only the remaining-quota gauges can differ. -/
theorem stats_read_idempotent (m : Manager) (id : String) (t1 t2 : ℚ)
    (a b a2 b2 : ClientStats)
    (h1 : (m.GetClientStats id t1).1 = some a)
    (h2 : ((m.GetClientStats id t1).2.GetClientStats id t2).1 = some b)
    (h3 : lookupKey (m.GetAllStats t1).1 id = some a2)
    (h4 : lookupKey ((m.GetAllStats t1).2.GetAllStats t2).1 id = some b2) :
    sameCounters a b ∧ sameCounters a2 b2 := by
  constructor
  · rw [getClientStats_fst_lookup] at h1 h2
    obtain ⟨s, hs, hc⟩ := counters_getClientStats id t2 id h2
    rw [h1] at hs
    cases hs
    exact hc
  · rw [getAllStats_fst] at h3 h4
    obtain ⟨s, hs, hc⟩ := counters_getAllStats t2 id h4
    rw [h3] at hs
    cases hs
    exact hc

/-- Witness for C9: a manager with a statistics record and no quota state
for `a`; both reads return the unchanged record. -/
theorem stats_read_idempotent_witness :
    sameCounters (newClientStats "a" 0) (newClientStats "a" 0) ∧
    sameCounters (newClientStats "a" 0) (newClientStats "a" 0) :=
  stats_read_idempotent (Manager.mk [] [("a", newClientStats "a" 0)])
    "a" 0 1 (newClientStats "a" 0) (newClientStats "a" 0)
    (newClientStats "a" 0) (newClientStats "a" 0) rfl rfl rfl rfl

/-! ## A failed weight check does not refund the request unit (claim C1) -/

theorem tryConsume_success_tokens {tb : TokenBucket} {now : ℚ} {a : Int}
    (h : (tb.TryConsume now a).1 = true) :
    (tb.TryConsume now a).2.tokens = (tb.refill now).tokens - (a : ℚ) := by
  by_cases hc : ((a : ℚ)) ≤ (tb.refill now).tokens
  · rw [tryConsume_eq, if_pos hc]
  · rw [tryConsume_eq, if_neg hc] at h
    simp at h

/-- C1: for an enabled client with both buckets, when the request-rate
consume of one unit succeeds and the weight-rate consume of the declared
weight then fails, the verdict is the weight-dimension rejection and the
request-rate bucket keeps the consumed unit — its level is the refilled
level minus one, with no refund. -/
theorem rpm_unit_not_refunded (m : Manager) (id : String) (cl : ClientLimiter)
    (rb tb : TokenBucket) (w : Int) (now : ℚ)
    (hcl : lookupKey m.clients id = some cl)
    (hen : cl.config.Enabled = true)
    (hrcfg : cl.config.RPM.isSome = true)
    (hrb : cl.rpmBucket = some rb)
    (htcfg : cl.config.TPM.isSome = true)
    (htb : cl.tpmBucket = some tb)
    (hrok : (rb.TryConsume now 1).1 = true)
    (htfail : (tb.TryConsume now w).1 = false) :
    (m.CheckAndConsume id w now).1 = some ErrTPMExceeded ∧
    ∃ cl', lookupKey ((m.CheckAndConsume id w now).2).clients id = some cl' ∧
      cl'.rpmBucket = some ((rb.TryConsume now 1).2) ∧
      ((rb.TryConsume now 1).2).tokens = (rb.refill now).tokens - 1 := by
  set m1 := (m.autoProvision id now).ensureStats id now with hm1
  have hframe : lookupKey m1.clients id = some cl := by
    rw [hm1, ensureStats_clients, autoProvision_of_isSome now (by rw [hcl]; rfl)]
    exact hcl
  obtain ⟨rv, hr⟩ := Option.isSome_iff_exists.mp hrcfg
  obtain ⟨tv, ht⟩ := Option.isSome_iff_exists.mp htcfg
  rw [checkAndConsume_as_phase m m1 id w now hm1.symm]
  simp only [hframe]
  rw [if_neg (by simp [hen])]
  simp only [hr, hrb]
  rw [if_neg (by simp [hrok])]
  unfold Manager.tpmPhase
  simp only [ht, htb]
  rw [if_pos htfail]
  refine ⟨rfl, ?_⟩
  have hm2 : (m1.setRpmBucket id ((rb.TryConsume now 1).2)).clients =
      upsert m1.clients id { cl with rpmBucket := some ((rb.TryConsume now 1).2) } := by
    unfold Manager.setRpmBucket
    rw [hframe]
  have hm3 : lookupKey
      (m1.setRpmBucket id ((rb.TryConsume now 1).2)).clients id =
      some { cl with rpmBucket := some ((rb.TryConsume now 1).2) } := by
    rw [hm2, lookupKey_upsert_self]
  refine ⟨{ cl with
      rpmBucket := some ((rb.TryConsume now 1).2)
      tpmBucket := some ((tb.TryConsume now w).2) }, ?_, rfl, ?_⟩
  · rw [updateDroppedStats_clients]
    unfold Manager.setTpmBucket
    rw [hm3, lookupKey_upsert_self]
  · have h := tryConsume_success_tokens hrok
    rw [h]
    norm_num

/-- Witness for C1: a client with request limit 2 and weight limit 10,
asked for weight 60 — the request unit stays consumed and the verdict is
the weight rejection. -/
theorem rpm_unit_not_refunded_witness :
    ((Manager.mk
        [("c", ClientLimiter.mk (ClientConfig.mk "c" (some 2) (some 10) true)
          (some (NewTokenBucket 2 2 0)) (some (NewTokenBucket 10 10 0)))]
        [("c", newClientStats "c" 0)]).CheckAndConsume "c" 60 0).1 =
      some ErrTPMExceeded ∧
    ∃ cl', lookupKey (((Manager.mk
        [("c", ClientLimiter.mk (ClientConfig.mk "c" (some 2) (some 10) true)
          (some (NewTokenBucket 2 2 0)) (some (NewTokenBucket 10 10 0)))]
        [("c", newClientStats "c" 0)]).CheckAndConsume "c" 60 0).2).clients
        "c" = some cl' ∧
      cl'.rpmBucket = some (((NewTokenBucket 2 2 0).TryConsume 0 1).2) ∧
      (((NewTokenBucket 2 2 0).TryConsume 0 1).2).tokens =
        ((NewTokenBucket 2 2 0).refill 0).tokens - 1 :=
  rpm_unit_not_refunded
    (Manager.mk
      [("c", ClientLimiter.mk (ClientConfig.mk "c" (some 2) (some 10) true)
        (some (NewTokenBucket 2 2 0)) (some (NewTokenBucket 10 10 0)))]
      [("c", newClientStats "c" 0)])
    "c"
    (ClientLimiter.mk (ClientConfig.mk "c" (some 2) (some 10) true)
      (some (NewTokenBucket 2 2 0)) (some (NewTokenBucket 10 10 0)))
    (NewTokenBucket 2 2 0) (NewTokenBucket 10 10 0) 60 0
    rfl rfl rfl rfl rfl rfl
    (by norm_num [TokenBucket.TryConsume, TokenBucket.refill, NewTokenBucket])
    (by norm_num [TokenBucket.TryConsume, TokenBucket.refill, NewTokenBucket])

/-! ## Config replacement resets the burst allowance (claim C6) -/

theorem refill_now_eq (tb : TokenBucket) (now : ℚ) (h : tb.lastRefill = now) :
    tb.refill now = tb := by
  unfold TokenBucket.refill
  rw [h]
  simp

theorem tryConsume_fresh_fst (c rr a : Int) (now : ℚ) (h : (a : ℚ) ≤ (c : ℚ)) :
    ((NewTokenBucket c rr now).TryConsume now a).1 = true := by
  rw [tryConsume_eq, refill_now_eq (NewTokenBucket c rr now) now rfl,
    if_pos (show (a : ℚ) ≤ (NewTokenBucket c rr now).tokens from h)]

theorem tryConsume_fresh_snd (c rr a : Int) (now : ℚ) (h : (a : ℚ) ≤ (c : ℚ)) :
    ((NewTokenBucket c rr now).TryConsume now a).2 =
      { NewTokenBucket c rr now with tokens := (c : ℚ) - (a : ℚ) } := by
  rw [tryConsume_eq, refill_now_eq (NewTokenBucket c rr now) now rfl,
    if_pos (show (a : ℚ) ≤ (NewTokenBucket c rr now).tokens from h)]
  rfl

theorem tryConsume_fail_fst (tb : TokenBucket) (now : ℚ) (a : Int)
    (hlast : tb.lastRefill = now) (h : ¬ ((a : ℚ) ≤ tb.tokens)) :
    (tb.TryConsume now a).1 = false := by
  rw [tryConsume_eq, refill_now_eq tb now hlast, if_neg h]

theorem isSome_stats_updateSuccessStats (m : Manager) (id : String) (t : Int)
    (now : ℚ) (id' : String) :
    (lookupKey (m.updateSuccessStats id t now).stats id').isSome =
      (lookupKey m.stats id').isSome := by
  unfold Manager.updateSuccessStats
  rcases hlk : lookupKey m.stats id with _ | s
  · rfl
  · simp only
    exact isSome_upsert_of_present _ (by rw [hlk]; rfl) id'

/-- Lemma: `CheckAndConsume` on a registered, enabled client whose stats record
exists reduces to the two bucket checks. -/
theorem checkAndConsume_on_entry (m : Manager) (id : String)
    (cl : ClientLimiter) (w : Int) (now : ℚ)
    (hcl : lookupKey m.clients id = some cl)
    (hst : (lookupKey m.stats id).isSome = true)
    (hen : cl.config.Enabled = true) :
    m.CheckAndConsume id w now =
      match cl.config.RPM, cl.rpmBucket with
      | some _, some b =>
        if (b.TryConsume now 1).1 = false then
          (some ErrRPMExceeded,
            (m.setRpmBucket id ((b.TryConsume now 1).2)).updateDroppedStats id
              "rpm" now)
        else
          (m.setRpmBucket id ((b.TryConsume now 1).2)).tpmPhase id cl w now
      | _, _ => m.tpmPhase id cl w now := by
  have hphase : (m.autoProvision id now).ensureStats id now = m := by
    rw [autoProvision_of_isSome now (by rw [hcl]; rfl),
      ensureStats_of_isSome now hst]
  rw [checkAndConsume_as_phase m m id w now hphase]
  simp only [hcl]
  rw [if_neg (by simp [hen])]

/-- A successful weight-phase pass: the verdict is admission, and the
registry entry keeps its configuration and request bucket while its weight
bucket becomes the consumed fresh bucket. -/
theorem tpmPhase_success_entry (mA : Manager) (id : String)
    (cl clA : ClientLimiter) (L : Int) (now : ℚ)
    (hclA : lookupKey mA.clients id = some clA)
    (htpm0 : cl.config.TPM = some L)
    (htpmB : cl.tpmBucket = some (NewTokenBucket L L now))
    (hL : 0 ≤ L) :
    (mA.tpmPhase id cl L now).1 = none ∧
    lookupKey ((mA.tpmPhase id cl L now).2).clients id =
      some { clA with
        tpmBucket := some (((NewTokenBucket L L now).TryConsume now L).2) } ∧
    (lookupKey ((mA.tpmPhase id cl L now).2).stats id).isSome =
      (lookupKey mA.stats id).isSome := by
  have hfst : ((NewTokenBucket L L now).TryConsume now L).1 = true :=
    tryConsume_fresh_fst L L L now (le_refl _)
  unfold Manager.tpmPhase
  simp only [htpm0, htpmB]
  rw [if_neg (by rw [hfst]; decide)]
  refine ⟨rfl, ?_, ?_⟩
  · rw [updateSuccessStats_clients]
    unfold Manager.setTpmBucket
    rw [hclA, lookupKey_upsert_self]
  · rw [isSome_stats_updateSuccessStats]
    rw [setTpmBucket_stats]

/-- The first decision after a config reset: both bucket checks pass, the
verdict is admission, and the weight bucket is left drained by `L`. -/
theorem first_decide_admits (m1 : Manager) (id : String) (cl0 : ClientLimiter)
    (L : Int) (now : ℚ)
    (hcl1 : lookupKey m1.clients id = some cl0)
    (hst1 : (lookupKey m1.stats id).isSome = true)
    (hen0 : cl0.config.Enabled = true)
    (htpm0 : cl0.config.TPM = some L)
    (htpmB : cl0.tpmBucket = some (NewTokenBucket L L now))
    (hL : 0 ≤ L)
    (hrpm_ok : ∀ b, cl0.rpmBucket = some b → (b.TryConsume now 1).1 = true) :
    (m1.CheckAndConsume id L now).1 = none ∧
    (∃ cl2, lookupKey ((m1.CheckAndConsume id L now).2).clients id = some cl2 ∧
      cl2.config = cl0.config ∧
      cl2.tpmBucket = some (((NewTokenBucket L L now).TryConsume now L).2)) ∧
    (lookupKey ((m1.CheckAndConsume id L now).2).stats id).isSome = true := by
  rw [checkAndConsume_on_entry m1 id cl0 L now hcl1 hst1 hen0]
  rcases hR : cl0.config.RPM with _ | rv <;> rcases hB : cl0.rpmBucket with _ | b <;>
    simp only [hR, hB]
  · obtain ⟨h1, h2, h3⟩ := tpmPhase_success_entry m1 id cl0 cl0 L now hcl1 htpm0 htpmB hL
    exact ⟨h1, ⟨_, h2, rfl, rfl⟩, by rw [h3]; exact hst1⟩
  · obtain ⟨h1, h2, h3⟩ := tpmPhase_success_entry m1 id cl0 cl0 L now hcl1 htpm0 htpmB hL
    exact ⟨h1, ⟨_, h2, rfl, rfl⟩, by rw [h3]; exact hst1⟩
  · obtain ⟨h1, h2, h3⟩ := tpmPhase_success_entry m1 id cl0 cl0 L now hcl1 htpm0 htpmB hL
    exact ⟨h1, ⟨_, h2, rfl, rfl⟩, by rw [h3]; exact hst1⟩
  · rw [if_neg (by rw [hrpm_ok b hB]; decide)]
    have hclA : lookupKey (m1.setRpmBucket id ((b.TryConsume now 1).2)).clients
        id = some { cl0 with rpmBucket := some ((b.TryConsume now 1).2) } := by
      unfold Manager.setRpmBucket
      rw [hcl1, lookupKey_upsert_self]
    obtain ⟨h1, h2, h3⟩ := tpmPhase_success_entry
      (m1.setRpmBucket id ((b.TryConsume now 1).2)) id cl0
      { cl0 with rpmBucket := some ((b.TryConsume now 1).2) } L now hclA htpm0
      htpmB hL
    refine ⟨h1, ⟨_, h2, rfl, rfl⟩, ?_⟩
    rw [h3, setRpmBucket_stats]
    exact hst1

/-- Any decision against a client whose weight bucket cannot cover `L` is a
rejection. -/
theorem decide_fails_on_drained (m2 : Manager) (id : String) (L : Int)
    (now : ℚ) (cl2 : ClientLimiter) (tb2 : TokenBucket)
    (hcl2 : lookupKey m2.clients id = some cl2)
    (hst2 : (lookupKey m2.stats id).isSome = true)
    (hen2 : cl2.config.Enabled = true)
    (htpm2 : cl2.config.TPM = some L)
    (htb2 : cl2.tpmBucket = some tb2)
    (hfail : (tb2.TryConsume now L).1 = false) :
    (m2.CheckAndConsume id L now).1 ≠ none := by
  rw [checkAndConsume_on_entry m2 id cl2 L now hcl2 hst2 hen2]
  have htpmPhase : ∀ mA : Manager,
      (mA.tpmPhase id cl2 L now).1 = some ErrTPMExceeded := by
    intro mA
    unfold Manager.tpmPhase
    simp only [htpm2, htb2]
    rw [if_pos hfail]
  rcases hR : cl2.config.RPM with _ | rv <;> rcases hB : cl2.rpmBucket with _ | rb <;>
    simp only [hR, hB]
  · rw [htpmPhase]
    simp
  · rw [htpmPhase]
    simp
  · rw [htpmPhase]
    simp
  · split
    · simp
    · rw [htpmPhase]
      simp

/-- C6: `SetClientConfig` replaces the client's whole quota state with
freshly built, full buckets; an existing statistics record is left
untouched; and with an enabled configuration carrying weight limit `L > 0`,
a decision at weight `L` issued at the reset instant admits while an
immediately repeated identical decision is rejected. -/
theorem setClientConfig_resets (m : Manager) (cfg : ClientConfig) (now : ℚ)
    (L : Int) (hen : cfg.Enabled = true) (htpm : cfg.TPM = some L)
    (hL : 0 < L) :
    lookupKey (m.SetClientConfig cfg now).clients cfg.ClientID =
      some (buildLimiter cfg now) ∧
    (∀ b, (buildLimiter cfg now).rpmBucket = some b →
      b.tokens = (b.capacity : ℚ)) ∧
    (∀ b, (buildLimiter cfg now).tpmBucket = some b →
      b.tokens = (b.capacity : ℚ)) ∧
    (∀ s, lookupKey m.stats cfg.ClientID = some s →
      lookupKey (m.SetClientConfig cfg now).stats cfg.ClientID = some s) ∧
    ((m.SetClientConfig cfg now).CheckAndConsume cfg.ClientID L now).1 =
      none ∧
    (((m.SetClientConfig cfg now).CheckAndConsume cfg.ClientID L
        now).2.CheckAndConsume cfg.ClientID L now).1 ≠ none := by
  have hcl1 : lookupKey (m.SetClientConfig cfg now).clients cfg.ClientID =
      some (buildLimiter cfg now) := by
    unfold Manager.SetClientConfig
    exact lookupKey_upsert_self _ _ _
  have hst1 : (lookupKey (m.SetClientConfig cfg now).stats
      cfg.ClientID).isSome = true := by
    unfold Manager.SetClientConfig
    rcases hlk : lookupKey m.stats cfg.ClientID with _ | s
    · simp only
      rw [lookupKey_upsert_self]
      rfl
    · simp only
      rw [hlk]
      rfl
  have htpmB : (buildLimiter cfg now).tpmBucket =
      some (NewTokenBucket L L now) := by
    show (match cfg.TPM with
      | some t => if 0 < t then some (NewTokenBucket t t now) else none
      | none => none) = some (NewTokenBucket L L now)
    rw [htpm]
    simp only [if_pos hL]
  have hrpm_ok : ∀ b, (buildLimiter cfg now).rpmBucket = some b →
      (b.TryConsume now 1).1 = true := by
    intro b hb
    have hb' : (match cfg.RPM with
        | some r => if 0 < r then some (NewTokenBucket r r now) else none
        | none => none) = some b := hb
    rcases hR : cfg.RPM with _ | r
    · simp only [hR] at hb'
      cases hb'
    · simp only [hR] at hb'
      by_cases hr : 0 < r
      · rw [if_pos hr] at hb'
        cases hb'
        refine tryConsume_fresh_fst r r 1 now ?_
        have : (1 : Int) ≤ r := hr
        exact_mod_cast this
      · rw [if_neg hr] at hb'
        cases hb'
  obtain ⟨hv1, ⟨cl2, hcl2, hcfg2, htb2⟩, hst2⟩ :=
    first_decide_admits (m.SetClientConfig cfg now) cfg.ClientID
      (buildLimiter cfg now) L now hcl1 hst1 hen htpm
      htpmB (le_of_lt hL) hrpm_ok
  have hLq : (0 : ℚ) < (L : ℚ) := by exact_mod_cast hL
  have hdrained : ((((NewTokenBucket L L now).TryConsume now L).2).TryConsume
      now L).1 = false := by
    rw [tryConsume_fresh_snd L L L now (le_refl _)]
    refine tryConsume_fail_fst _ now _ rfl ?_
    show ¬ ((L : ℚ) ≤ (L : ℚ) - (L : ℚ))
    simp only [sub_self]
    exact not_le.mpr hLq
  refine ⟨hcl1, ?_, ?_, ?_, hv1, ?_⟩
  · intro b hb
    have hb' : (match cfg.RPM with
        | some r => if 0 < r then some (NewTokenBucket r r now) else none
        | none => none) = some b := hb
    rcases hR : cfg.RPM with _ | r
    · simp only [hR] at hb'
      cases hb'
    · simp only [hR] at hb'
      by_cases hr : 0 < r
      · rw [if_pos hr] at hb'
        cases hb'
        rfl
      · rw [if_neg hr] at hb'
        cases hb'
  · intro b hb
    have hb' : (match cfg.TPM with
        | some t => if 0 < t then some (NewTokenBucket t t now) else none
        | none => none) = some b := hb
    simp only [htpm] at hb'
    rw [if_pos hL] at hb'
    cases hb'
    rfl
  · intro s hs
    unfold Manager.SetClientConfig
    simp only [hs]
  · exact decide_fails_on_drained _ cfg.ClientID L now cl2
      (((NewTokenBucket L L now).TryConsume now L).2) hcl2 hst2
      (by rw [hcfg2]; exact hen) (by rw [hcfg2]; exact htpm) htb2 hdrained

/-- Witness for C6: client `b` reset to weight limit 100; one decision at
weight 100 succeeds and the immediate repeat fails; the prior statistics
record survives the reset untouched. -/
theorem setClientConfig_resets_witness :
    lookupKey ((Manager.mk [] [("b", newClientStats "b" 0)]).SetClientConfig
        (ClientConfig.mk "b" none (some 100) true) 0).clients "b" =
      some (buildLimiter (ClientConfig.mk "b" none (some 100) true) 0) ∧
    (NewTokenBucket 100 100 0).tokens =
      ((NewTokenBucket 100 100 0).capacity : ℚ) ∧
    lookupKey ((Manager.mk [] [("b", newClientStats "b" 0)]).SetClientConfig
        (ClientConfig.mk "b" none (some 100) true) 0).stats "b" =
      some (newClientStats "b" 0) ∧
    (((Manager.mk [] [("b", newClientStats "b" 0)]).SetClientConfig
        (ClientConfig.mk "b" none (some 100) true) 0).CheckAndConsume "b" 100
        0).1 = none ∧
    ((((Manager.mk [] [("b", newClientStats "b" 0)]).SetClientConfig
        (ClientConfig.mk "b" none (some 100) true) 0).CheckAndConsume "b" 100
        0).2.CheckAndConsume "b" 100 0).1 ≠ none := by
  obtain ⟨h1, h2, h3, h4, h5, h6⟩ :=
    setClientConfig_resets (Manager.mk [] [("b", newClientStats "b" 0)])
      (ClientConfig.mk "b" none (some 100) true) 0 100 rfl rfl (by norm_num)
  refine ⟨h1, ?_, h4 (newClientStats "b" 0) rfl, h5, h6⟩
  exact h3 (NewTokenBucket 100 100 0)
    (by show (if (0 : Int) < 100 then some (NewTokenBucket 100 100 0)
          else none) = some (NewTokenBucket 100 100 0)
        norm_num)

/-! ## Latency recording (claim C7) -/

/-- C7: `UpdateLatency` with sample `ms` is a no-op when the client has no
statistics record; otherwise it sets the average to `ms` when no average
exists yet (the zero-valued Go field) and to `(avg + ms) / 2` when one
does, leaving every other field unchanged. -/
theorem updateLatency_spec (m : Manager) (id : String) (ms : ℚ) :
    (lookupKey m.stats id = none → m.UpdateLatency id ms = m) ∧
    (∀ s, lookupKey m.stats id = some s → s.AvgLatencyMs = 0 →
      lookupKey (m.UpdateLatency id ms).stats id =
        some { s with AvgLatencyMs := ms } ∧
      (m.UpdateLatency id ms).clients = m.clients) ∧
    (∀ s, lookupKey m.stats id = some s → s.AvgLatencyMs ≠ 0 →
      lookupKey (m.UpdateLatency id ms).stats id =
        some { s with AvgLatencyMs := (s.AvgLatencyMs + ms) / 2 } ∧
      (m.UpdateLatency id ms).clients = m.clients) := by
  refine ⟨?_, ?_, ?_⟩
  · intro h
    unfold Manager.UpdateLatency
    rw [h]
  · intro s hs h0
    unfold Manager.UpdateLatency
    rw [hs]
    simp only [h0, if_true, lookupKey_upsert_self]
    exact ⟨trivial, trivial⟩
  · intro s hs h0
    unfold Manager.UpdateLatency
    rw [hs]
    simp only [if_neg h0, lookupKey_upsert_self]
    exact ⟨trivial, trivial⟩

/-- Witness for C7: on an empty manager the call is a no-op; on a record
with no average yet the sample 10 is stored; on a record whose average is 8
the sample 4 yields 6. -/
theorem updateLatency_spec_witness :
    NewManager.UpdateLatency "a" 10 = NewManager ∧
    lookupKey ((Manager.mk [] [("a", newClientStats "a" 0)]).UpdateLatency
        "a" 10).stats "a" =
      some { newClientStats "a" 0 with AvgLatencyMs := 10 } ∧
    lookupKey ((Manager.mk []
        [("a", { newClientStats "a" 0 with AvgLatencyMs := 8 })]).UpdateLatency
        "a" 4).stats "a" =
      some { newClientStats "a" 0 with AvgLatencyMs := 6 } := by
  refine ⟨?_, ?_, ?_⟩
  · exact (updateLatency_spec NewManager "a" 10).1 rfl
  · have h := (updateLatency_spec (Manager.mk [] [("a", newClientStats "a" 0)])
      "a" 10).2.1 (newClientStats "a" 0) (by simp [lookupKey]) rfl
    exact h.1
  · have h := (updateLatency_spec
      (Manager.mk [] [("a", { newClientStats "a" 0 with AvgLatencyMs := 8 })])
      "a" 4).2.2 { newClientStats "a" 0 with AvgLatencyMs := 8 }
      (by simp [lookupKey]) (by norm_num)
    rw [h.1]
    norm_num

/-! ## Client deletion (claim C8) -/

/-- C8: deleting an existing client returns `true`, removes both the quota
state and the statistics record, makes an immediate second delete return
`false`, and makes subsequent config and stats reads report not-found. -/
theorem deleteClient_spec (m : Manager) (id : String) (now : ℚ)
    (h : (lookupKey m.clients id).isSome = true) :
    (m.DeleteClient id).1 = true ∧
    lookupKey (m.DeleteClient id).2.clients id = none ∧
    lookupKey (m.DeleteClient id).2.stats id = none ∧
    ((m.DeleteClient id).2.DeleteClient id).1 = false ∧
    (m.DeleteClient id).2.GetClientConfig id = none ∧
    ((m.DeleteClient id).2.GetClientStats id now).1 = none := by
  have h2 : lookupKey (eraseKey m.clients id) id = none := by
    simp [lookupKey_eraseKey]
  have h3 : lookupKey (eraseKey m.stats id) id = none := by
    simp [lookupKey_eraseKey]
  simp [Manager.DeleteClient, Manager.GetClientConfig, Manager.GetClientStats,
    h, h2, h3]

/-- Witness for C8: deleting the configured client `a`. -/
theorem deleteClient_spec_witness :
    ((NewManager.SetClientConfig
        { ClientID := "a", RPM := some 2, TPM := none, Enabled := true }
        0).DeleteClient "a").1 = true ∧
    lookupKey ((NewManager.SetClientConfig
        { ClientID := "a", RPM := some 2, TPM := none, Enabled := true }
        0).DeleteClient "a").2.clients "a" = none ∧
    lookupKey ((NewManager.SetClientConfig
        { ClientID := "a", RPM := some 2, TPM := none, Enabled := true }
        0).DeleteClient "a").2.stats "a" = none ∧
    (((NewManager.SetClientConfig
        { ClientID := "a", RPM := some 2, TPM := none, Enabled := true }
        0).DeleteClient "a").2.DeleteClient "a").1 = false ∧
    ((NewManager.SetClientConfig
        { ClientID := "a", RPM := some 2, TPM := none, Enabled := true }
        0).DeleteClient "a").2.GetClientConfig "a" = none ∧
    (((NewManager.SetClientConfig
        { ClientID := "a", RPM := some 2, TPM := none, Enabled := true }
        0).DeleteClient "a").2.GetClientStats "a" 1).1 = none :=
  deleteClient_spec
    (NewManager.SetClientConfig
      { ClientID := "a", RPM := some 2, TPM := none, Enabled := true } 0)
    "a" 1 rfl

end FlowGuard
